import Mathlib

/-!
Verification development for the Nachos-derived educational kernel.

Shallow embedding of the file-system core (free-space bitmap, file header,
directory, file manager, file-system facade), the virtual-memory core
(core map, address space page tables), the read-write lock, and the
system-call handlers, together with theorems settling the behavioural
claims about them.

Numeric conventions: C `unsigned` values are modelled as `Nat`; functions
that can return `-1` (lookups, allocation) return `Int` or `Option`.
Conversions from `int` to `unsigned` go through `toUnsigned` (mod 2^32).
-/

namespace Nachos

/-- Machine word width conversion for storing a C `int` into an `unsigned`
field (two's-complement reduction mod 2^32). -/
def toUnsigned (i : Int) : Nat := (i % (2 ^ 32 : Nat)).toNat

/-- From `lib/utility.hh`: `DivRoundUp(n, s) = n / s + (n % s > 0 ? 1 : 0)`. -/
def divRoundUp (n s : Nat) : Nat := n / s + (if n % s > 0 then 1 else 0)

/-- From `lib/utility.hh`: `DivRoundDown(n, s) = n / s`. -/
def divRoundDown (n s : Nat) : Nat := n / s

/-- Modelled from the spec: `machine/disk.hh` is not among the sources; §3
fixes the sector size parameter S at 128 bytes (as used by scenario S3). -/
def SECTOR_SIZE : Nat := 128

/-- Modelled from the spec: `machine/disk.hh` is not among the sources; the
disk has `NUM_SECTORS` sectors (1024 in the classic configuration; its exact
value is irrelevant to the claims below, which treat it as a parameter of
the bitmap length). -/
def NUM_SECTORS : Nat := 1024

/-- From `filesys/raw_file_header.hh`:
`NUM_DIRECT = (SECTOR_SIZE - 4 * sizeof(unsigned)) / sizeof(unsigned)`,
with `sizeof(unsigned) = 4` on the simulated machine. -/
def NUM_DIRECT : Nat := (SECTOR_SIZE - 4 * 4) / 4

/-- From `filesys/raw_file_header.hh`: `NUM_INDIRECT = SECTOR_SIZE / sizeof(unsigned)`. -/
def NUM_INDIRECT : Nat := SECTOR_SIZE / 4

/-- From `filesys/raw_file_header.hh`:
`MAX_FILE_SIZE = (NUM_DIRECT + NUM_INDIRECT + NUM_INDIRECT * NUM_INDIRECT) * SECTOR_SIZE`. -/
def MAX_FILE_SIZE : Nat := (NUM_DIRECT + NUM_INDIRECT + NUM_INDIRECT * NUM_INDIRECT) * SECTOR_SIZE

/-! ### Free-space bitmap

Modelled from the spec: `lib/bitmap.cc` is not among the sources.  Spec §4.4:
a fixed-size bit-set with `Test`, `Mark`, `Clear`, `Find` (first free bit is
marked and its index returned, `-1` when none), `CountClear`, and
persistence operations.  A bitmap is a list of booleans, `true` = in use. -/

/-- Modelled from the spec: bitmap of disk sectors, bit `true` = sector in use. -/
def Bitmap : Type := List Bool

/-- Modelled from the spec: `Bitmap::Test(which)`. -/
def bmTest (fm : Bitmap) (which : Nat) : Bool := List.getD fm which false

/-- Modelled from the spec: `Bitmap::Mark(which)`. -/
def bmMark (fm : Bitmap) (which : Nat) : Bitmap := List.set fm which true

/-- Modelled from the spec: `Bitmap::Clear(which)`. -/
def bmClear (fm : Bitmap) (which : Nat) : Bitmap := List.set fm which false

/-- Modelled from the spec: `Bitmap::CountClear()`. -/
def bmCountClear (fm : Bitmap) : Nat := List.count false fm

/-- First clear bit of the bitmap, if any. -/
def bmFirstClear (fm : Bitmap) : Option Nat := List.findIdx? (fun b => b = false) fm

/-- Modelled from the spec: `Bitmap::Find()` marks the first clear bit and
returns its index, or returns `-1` leaving the bitmap unchanged. -/
def bmFind (fm : Bitmap) : Int × Bitmap :=
  match bmFirstClear fm with
  | some i => ((i : Int), bmMark fm i)
  | none => (-1, fm)

/-! ### File header (i-node)

Translated from `filesys/file_header.cc` and `filesys/raw_file_header.hh`.
The fixed-size C arrays are modelled as total functions from index to
sector number; entries outside the allocated range are junk, exactly as the
uninitialised array cells are in the source. -/

/-- From `filesys/raw_file_header.hh`: the on-disk file header. -/
structure RawFileHeader where
  numBytes : Nat
  numSectors : Nat
  dataSectors : Nat → Nat
  indirectionSector : Nat
  doubleIndirectionSector : Nat

/-- From `filesys/file_header.hh`: in-memory header with the lazily loaded
indirect tables. -/
structure FileHeader where
  raw : RawFileHeader
  indirectDataSectors : Nat → Nat
  doubleIndirectSectors : Nat → Nat
  doubleIndirectDataSectors : Nat → Nat → Nat

/-- Pointwise update of a modelled C array. -/
def updateFn (f : Nat → Nat) (i v : Nat) : Nat → Nat :=
  fun j => if j = i then v else f j

/-- Pointwise update of a modelled two-dimensional C array. -/
def updateFn2 (g : Nat → Nat → Nat) (i j v : Nat) : Nat → Nat → Nat :=
  fun a b => if a = i ∧ b = j then v else g a b

/-- From `FileHeader::CalculateRequiredSectors(bytes)`: number of sectors
(data plus indirection) required to store `bytes` bytes. -/
def calculateRequiredSectors (bytes : Nat) : Nat :=
  let sectors := divRoundUp bytes SECTOR_SIZE
  let req := min sectors NUM_DIRECT
  let req := if sectors > NUM_DIRECT then req + 1 + min (sectors - NUM_DIRECT) NUM_INDIRECT else req
  if sectors > NUM_DIRECT + NUM_INDIRECT then
    req + 1 + divRoundUp (sectors - NUM_DIRECT - NUM_INDIRECT) NUM_INDIRECT
      + (sectors - NUM_DIRECT - NUM_INDIRECT)
  else req

/-- Loop `for (i = lo; i < hi; i++) f[i] = bitmap->Find();` threading the
bitmap through the successive `Find` calls. -/
def allocRange (f : Nat → Nat) (fm : Bitmap) (lo hi : Nat) : (Nat → Nat) × Bitmap :=
  if lo < hi then
    let r := bmFind fm
    allocRange (updateFn f lo (toUnsigned r.1)) r.2 (lo + 1) hi
  else (f, fm)
termination_by hi - lo

/-- Loop `for (i = lo; i < hi; i++) g[i / NUM_INDIRECT][i % NUM_INDIRECT] =
bitmap->Find();` threading the bitmap. -/
def allocRange2 (g : Nat → Nat → Nat) (fm : Bitmap) (lo hi : Nat) : (Nat → Nat → Nat) × Bitmap :=
  if lo < hi then
    let r := bmFind fm
    allocRange2 (updateFn2 g (lo / NUM_INDIRECT) (lo % NUM_INDIRECT) (toUnsigned r.1)) r.2 (lo + 1) hi
  else (g, fm)
termination_by hi - lo

/-- Fresh `new unsigned[NUM_INDIRECT]` rows for the pool indexes in `[lo, hi)`
(array contents are junk until assigned, modelled as 0). -/
def freshRows (g : Nat → Nat → Nat) (lo hi : Nat) : Nat → Nat → Nat :=
  fun a b => if lo ≤ a ∧ a < hi then 0 else g a b

/-- Allocation body of `FileHeader::Extend` (lines after the two early
returns, which always succeed): update `numBytes`/`numSectors` and allocate
the direct, indirect and double-indirect sectors the growth needs. -/
def extendAlloc (h : FileHeader) (fm : Bitmap) (bytes : Nat) : FileHeader × Bitmap :=
      let cur0 := h.raw.numSectors
      let nb := h.raw.numBytes + bytes
      let ns := divRoundUp nb SECTOR_SIZE
      -- Allocate direct sectors.
      let dPhase :=
        if cur0 < NUM_DIRECT then allocRange h.raw.dataSectors fm cur0 (min ns NUM_DIRECT)
        else (h.raw.dataSectors, fm)
      let cur1 := if cur0 < NUM_DIRECT then min ns NUM_DIRECT else cur0
      let mkRaw := fun (ds : Nat → Nat) (ind dbl : Nat) =>
        RawFileHeader.mk nb ns ds ind dbl
      if cur1 = ns then
        ({ h with raw := mkRaw dPhase.1 h.raw.indirectionSector h.raw.doubleIndirectionSector },
          dPhase.2)
      else
        -- Allocate indirect sectors.
        let iInit :=
          if cur1 = NUM_DIRECT then
            let r := bmFind dPhase.2
            (toUnsigned r.1, fun (_ : Nat) => 0, r.2)
          else (h.raw.indirectionSector, h.indirectDataSectors, dPhase.2)
        let iPhase :=
          if cur1 < NUM_DIRECT + NUM_INDIRECT then
            allocRange iInit.2.1 iInit.2.2 (cur1 - NUM_DIRECT) (min (ns - NUM_DIRECT) NUM_INDIRECT)
          else (iInit.2.1, iInit.2.2)
        let cur2 := if cur1 < NUM_DIRECT + NUM_INDIRECT then min ns (NUM_DIRECT + NUM_INDIRECT) else cur1
        if cur2 = ns then
          ({ raw := mkRaw dPhase.1 iInit.1 h.raw.doubleIndirectionSector,
              indirectDataSectors := iPhase.1,
              doubleIndirectSectors := h.doubleIndirectSectors,
              doubleIndirectDataSectors := h.doubleIndirectDataSectors },
            iPhase.2)
        else
          -- Allocate double indirect sectors.
          let dblInit :=
            if cur2 = NUM_DIRECT + NUM_INDIRECT then
              let r := bmFind iPhase.2
              (toUnsigned r.1, fun (_ : Nat) => 0, fun (_ _ : Nat) => 0, r.2)
            else (h.raw.doubleIndirectionSector, h.doubleIndirectSectors,
              h.doubleIndirectDataSectors, iPhase.2)
          let poolLo := divRoundUp (cur2 - NUM_DIRECT - NUM_INDIRECT) NUM_INDIRECT
          let poolHi := divRoundUp (ns - NUM_DIRECT - NUM_INDIRECT) NUM_INDIRECT
          let pPhase := allocRange dblInit.2.1 dblInit.2.2.2 poolLo poolHi
          let dd0 := freshRows dblInit.2.2.1 poolLo poolHi
          let ddPhase := allocRange2 dd0 pPhase.2 (cur2 - NUM_DIRECT - NUM_INDIRECT)
            (min (ns - NUM_DIRECT - NUM_INDIRECT) (NUM_INDIRECT * NUM_INDIRECT))
          ({ raw := mkRaw dPhase.1 iInit.1 dblInit.1,
              indirectDataSectors := iPhase.1,
              doubleIndirectSectors := pPhase.1,
              doubleIndirectDataSectors := ddPhase.1 },
            ddPhase.2)

/-- From `FileHeader::Extend(bitmap, bytes)`: fail when the growth exceeds
`MAX_FILE_SIZE` or the bitmap's clear count is below the delta of required
sectors (both before touching anything); otherwise run the allocation body,
which always returns true. -/
def extend (h : FileHeader) (fm : Bitmap) (bytes : Nat) : Bool × FileHeader × Bitmap :=
  if h.raw.numBytes + bytes > MAX_FILE_SIZE then (false, h, fm)
  else
    let requiredSectors :=
      calculateRequiredSectors (h.raw.numBytes + bytes) - calculateRequiredSectors h.raw.numBytes
    if bmCountClear fm < requiredSectors then (false, h, fm)
    else
      let r := extendAlloc h fm bytes
      (true, r.1, r.2)

/-- From `FileHeader::FileLength()`: number of bytes in the file. -/
def fileLength (h : FileHeader) : Nat := h.raw.numBytes

/-- From `FileHeader::GetSector(i)`: the sector storing the i-th data block.
The `ASSERT(i < raw.numSectors)` is modelled by returning `none` when it
fails. -/
def getSector (h : FileHeader) (i : Nat) : Option Nat :=
  if i < h.raw.numSectors then
    some (if i < NUM_DIRECT then h.raw.dataSectors i
      else if i < NUM_DIRECT + NUM_INDIRECT then h.indirectDataSectors (i - NUM_DIRECT)
      else h.doubleIndirectDataSectors ((i - NUM_DIRECT - NUM_INDIRECT) / NUM_INDIRECT)
        ((i - NUM_DIRECT - NUM_INDIRECT) % NUM_INDIRECT))
  else none

/-- From `FileHeader::ByteToSector(offset)`: sector storing the byte at
`offset`.  The `ASSERT(offset < raw.numBytes)` is modelled by `none`. -/
def byteToSector (h : FileHeader) (offset : Nat) : Option Nat :=
  if offset < h.raw.numBytes then getSector h (offset / SECTOR_SIZE) else none

/-- The sectors cleared by `FileHeader::Deallocate`, in clearing order:
direct data sectors, then the indirection sector and its data sectors, then
the double-indirection sector, its pool sectors and their data sectors. -/
def deallocList (h : FileHeader) : List Nat :=
  (List.range (min h.raw.numSectors NUM_DIRECT)).map h.raw.dataSectors
  ++ (if h.raw.numSectors ≤ NUM_DIRECT then [] else
    h.raw.indirectionSector ::
      ((List.range (min (h.raw.numSectors - NUM_DIRECT) NUM_INDIRECT)).map h.indirectDataSectors
      ++ (if h.raw.numSectors ≤ NUM_DIRECT + NUM_INDIRECT then [] else
        h.raw.doubleIndirectionSector ::
          ((List.range (divRoundUp (h.raw.numSectors - NUM_DIRECT - NUM_INDIRECT) NUM_INDIRECT)).map
              h.doubleIndirectSectors
          ++ (List.range (min (h.raw.numSectors - NUM_DIRECT - NUM_INDIRECT)
              (NUM_INDIRECT * NUM_INDIRECT))).map
            (fun i => h.doubleIndirectDataSectors (i / NUM_INDIRECT) (i % NUM_INDIRECT))))))

/-- Clear each listed sector in order, checking the source's
`ASSERT(bitmap->Test(...))` ("ought to be marked!") before each clear;
`none` models an assertion failure. -/
def clearAll (fm : Bitmap) : List Nat → Option Bitmap
  | [] => some fm
  | s :: rest => if bmTest fm s then clearAll (bmClear fm s) rest else none

/-- From `FileHeader::Deallocate(bitmap)`: release every sector of the file
back to the bitmap. -/
def deallocate (h : FileHeader) (fm : Bitmap) : Option Bitmap :=
  clearAll fm (deallocList h)

/-! ### Directory

Translated from `filesys/directory.cc`.  The fixed-width names of
`DirectoryEntry` are modelled as `String` with plain equality (the source
compares with `strncmp(..., FILE_NAME_MAX_LEN)`, which agrees with string
equality for the bounded names stored in entries).  The `isDirectory` field
comes from the spec's entry layout (`filesys/directory_entry.hh` is not
among the sources). -/

/-- A directory row: `[inUse][isDirectory][markedForDeletion][name][sector]`. -/
structure DirEntry where
  inUse : Bool
  isDirectory : Bool
  markedForDeletion : Bool
  name : String
  sector : Nat

/-- A row counted by `Directory::FindIndex(name, includeMarkedForDeletion)`:
in use and, unless marked rows are included, not marked for deletion. -/
def entryValid (e : DirEntry) (includeMarked : Bool) : Bool :=
  e.inUse && (includeMarked || !e.markedForDeletion)

/-- From `Directory::FindIndex(name, includeMarkedForDeletion)`, returning
the matching row instead of its index. -/
def dirFindEntry (table : List DirEntry) (name : String) (includeMarked : Bool) :
    Option DirEntry :=
  List.find? (fun e => entryValid e includeMarked && e.name == name) table

/-- From `Directory::Find(name)`: header sector of the named file, `-1` when
absent (rows marked for deletion are invisible). -/
def dirFind (table : List DirEntry) (name : String) : Int :=
  match dirFindEntry table name false with
  | some e => (e.sector : Int)
  | none => -1

/-- From `Directory::FindIndexBySector(sector, includeMarkedForDeletion)`,
returning the matching row instead of its index. -/
def dirFindEntryBySector (table : List DirEntry) (sector : Nat) (includeMarked : Bool) :
    Option DirEntry :=
  List.find? (fun e => entryValid e includeMarked && e.sector == sector) table

/-- From `Directory::Remove(name)`: clear `inUse` on the first row found by
`FindIndex(name, false)`; returns whether a row was found. -/
def dirRemove : List DirEntry → String → Bool × List DirEntry
  | [], _ => (false, [])
  | e :: rest, name =>
    if entryValid e false && e.name == name then (true, { e with inUse := false } :: rest)
    else
      let r := dirRemove rest name
      (r.1, e :: r.2)

/-- From `Directory::MarkForDeletion(sector)`: set `markedForDeletion` on the
first row found by `FindIndexBySector(sector, false)`; the source's
`ASSERT(i != -1)` is modelled by `none`. -/
def dirMarkForDeletion : List DirEntry → Nat → Option (List DirEntry)
  | [], _ => none
  | e :: rest, sector =>
    if entryValid e false && e.sector == sector then
      some ({ e with markedForDeletion := true } :: rest)
    else (e :: ·) <$> dirMarkForDeletion rest sector

/-- From `Directory::IsMarkedForDeletion(sector)`: the flag of the first row
found by `FindIndexBySector(sector, true)`; `none` models the assert. -/
def dirIsMarkedForDeletion (table : List DirEntry) (sector : Nat) : Option Bool :=
  (dirFindEntryBySector table sector true).map (·.markedForDeletion)

/-- From `Directory::RemoveMarkedForDeletion(sector)`: clear `inUse` on the
first row found by `FindIndexBySector(sector, true)`; the source asserts the
row exists and is marked, modelled by `none`. -/
def dirRemoveMarkedForDeletion : List DirEntry → Nat → Option (List DirEntry)
  | [], _ => none
  | e :: rest, sector =>
    if entryValid e true && e.sector == sector then
      if e.markedForDeletion then some ({ e with inUse := false } :: rest) else none
    else (e :: ·) <$> dirRemoveMarkedForDeletion rest sector

/-- Modelled from the spec: `Directory::HasEntry(name)` of the extended
directory (its source is not among the files); an entry with the given name
exists and is visible (in use, not marked for deletion). -/
def dirHasEntry (table : List DirEntry) (name : String) : Bool :=
  (dirFindEntry table name false).isSome

/-- Modelled from the spec: `Directory::Add(name, sector, isDirectory)` of
the extended directory; writes the first free row (growing the table when
full, so growth never fails in this design) and returns success. -/
def dirAdd : List DirEntry → String → Nat → Bool → Bool × List DirEntry
  | [], name, sector, isDir => (true, [⟨true, isDir, false, name, sector⟩])
  | e :: rest, name, sector, isDir =>
    if !e.inUse then (true, ⟨true, isDir, false, name, sector⟩ :: rest)
    else
      let r := dirAdd rest name sector isDir
      (r.1, e :: r.2)

/-- Modelled from the spec: `Directory::FindDirectory(name)`; like `Find`
but the row must have `isDirectory` set.  Returns the header sector. -/
def dirFindDirectory (table : List DirEntry) (name : String) : Option Nat :=
  (List.find? (fun e => (entryValid e false && e.name == name) && e.isDirectory) table).map
    (·.sector)

/-- Modelled from the spec: `Directory::IsEmpty()`; no row is in use. -/
def dirIsEmpty (table : List DirEntry) : Bool :=
  table.all (fun e => !e.inUse)

/-! ### File manager and file-system facade state

Translated from `file_manager.cc` (the open-file cache) and the body of the
path-aware `FileSystem` facade.  The persistent state is modelled
explicitly: directory tables and file headers by header sector, the
in-memory free map shared by the facade and the manager, and the persisted
free-map file contents. -/

/-- From `FileManager::OpenFileInfo` (the RW-lock is irrelevant to the
state claims and omitted): parent directory sector, reference count, and
the cached in-memory header shared by all holders. -/
structure OpenInfo where
  directorySector : Nat
  referenceCount : Nat
  cachedHeader : FileHeader

/-- Pointwise update of a sector-indexed store. -/
def updMap {α : Type} (f : Nat → α) (i : Nat) (v : α) : Nat → α :=
  fun j => if j = i then v else f j

/-- Combined persistent and in-memory state of the file-system core. -/
structure FMState where
  dirs : Nat → List DirEntry
  headers : Nat → FileHeader
  freeMap : Bitmap
  freeMapDisk : Bitmap
  openFiles : List (Nat × OpenInfo)

/-- `openFiles.find(sector)` of the `std::map` keyed by header sector. -/
def fmLookup (ofs : List (Nat × OpenInfo)) (sector : Nat) : Option OpenInfo :=
  (List.find? (fun p => p.1 == sector) ofs).map (·.2)

/-- From `FileManager::IsManaged(sector)`. -/
def fmIsManaged (st : FMState) (sector : Nat) : Bool :=
  (fmLookup st.openFiles sector).isSome

/-- Replace the value at an existing key, or insert it. -/
def fmSet : List (Nat × OpenInfo) → Nat → OpenInfo → List (Nat × OpenInfo)
  | [], sector, info => [(sector, info)]
  | p :: rest, sector, info =>
    if p.1 = sector then (sector, info) :: rest else p :: fmSet rest sector info

/-- `openFiles.erase(sector)`. -/
def fmErase (ofs : List (Nat × OpenInfo)) (sector : Nat) : List (Nat × OpenInfo) :=
  ofs.filter (fun p => p.1 ≠ sector)

/-- From `FileManager::Open(name, directoryFile)`: resolve the name in the
given directory; `none` result component means the null handle (file not
found).  On success the handle is identified by its header sector.  The
outer `Option` models the assert on the managed entry's recorded parent
directory. -/
def fmOpen (st : FMState) (name : String) (dirSector : Nat) :
    Option (Option Nat × FMState) :=
  let dir := st.dirs dirSector
  match dirFindEntry dir name false with
  | none => some (none, st)
  | some e =>
    let sector := e.sector
    if fmIsManaged st sector then
      match fmLookup st.openFiles sector with
      | none => none
      | some info =>
        if info.directorySector = dirSector then
          let info2 := { info with referenceCount := info.referenceCount + 1 }
          some (some sector, { st with openFiles := fmSet st.openFiles sector info2 })
        else none
    else
      let info : OpenInfo := ⟨dirSector, 0, st.headers sector⟩
      let info2 := { info with referenceCount := info.referenceCount + 1 }
      some (some sector, { st with openFiles := fmSet st.openFiles sector info2 })

/-- From `FileManager::Remove(name, directoryFile)`: immediate deallocation
for unmanaged files, otherwise mark the directory row for deletion.  `none`
models an assertion failure. -/
def fmRemove (st : FMState) (name : String) (dirSector : Nat) :
    Option (Bool × FMState) :=
  let dir := st.dirs dirSector
  match dirFindEntry dir name false with
  | none => some (false, st)
  | some e =>
    let sector := e.sector
    if fmIsManaged st sector then
      match fmLookup st.openFiles sector with
      | none => none
      | some info =>
        if info.referenceCount > 0 ∧ info.directorySector = dirSector then
          (dirMarkForDeletion dir sector).map fun dir2 =>
            (true, { st with dirs := updMap st.dirs dirSector dir2 })
        else none
    else
      (deallocate (st.headers sector) st.freeMap).map fun fm1 =>
        let fm2 := bmClear fm1 sector
        let r := dirRemove dir name
        (true,
          { st with
              freeMap := fm2, freeMapDisk := fm2,
              dirs := updMap st.dirs dirSector r.2 })

/-- From `FileManager::Close(file)`: drop one reference; at zero, free the
file's sectors and clear its directory row when the row is marked for
deletion, and evict the cache entry.  `none` models an assertion failure.
The source's unsigned `referenceCount--` never wraps: entries exist only
with `referenceCount >= 1` (invariant I3), so plain `Nat` subtraction is
faithful. -/
def fmClose (st : FMState) (sector : Nat) : Option FMState :=
  match fmLookup st.openFiles sector with
  | none => none
  | some info =>
    let rc := info.referenceCount - 1
    if rc = 0 then
      let dsec := info.directorySector
      let dir := st.dirs dsec
      (dirIsMarkedForDeletion dir sector).bind fun marked =>
        if marked then
          (deallocate info.cachedHeader st.freeMap).bind fun fm1 =>
            let fm2 := bmClear fm1 sector
            (dirRemoveMarkedForDeletion dir sector).map fun dir2 =>
              { st with
                  freeMap := fm2, freeMapDisk := fm2,
                  dirs := updMap st.dirs dsec dir2,
                  openFiles := fmErase st.openFiles sector }
        else some { st with openFiles := fmErase st.openFiles sector }
    else
      let info2 := { info with referenceCount := rc }
      some { st with openFiles := fmSet st.openFiles sector info2 }

/-- A freshly constructed `FileHeader` (`numBytes = 0`, `numSectors = 0`;
array contents are junk, modelled as 0). -/
def newFileHeader : FileHeader :=
  { raw := ⟨0, 0, fun _ => 0, 0, 0⟩,
    indirectDataSectors := fun _ => 0,
    doubleIndirectSectors := fun _ => 0,
    doubleIndirectDataSectors := fun _ _ => 0 }

/-- From `FileSystem::CreateFile(filepath, initialSize)`: the body after
`LoadDirectory` resolved the parent directory (sector `dirSector`) and the
final path component `name` was isolated.  The facade asserts
`initialSize < MAX_FILE_SIZE` at entry (callers guarantee it).  On any
failure the in-memory free map is re-fetched from the persisted free-map
file; on success header, directory and free map are flushed. -/
def createFile (st : FMState) (dirSector : Nat) (name : String) (initialSize : Nat) :
    Bool × FMState :=
  let dir := st.dirs dirSector
  if dirHasEntry dir name then (false, { st with freeMap := st.freeMapDisk })
  else
    let fr := bmFind st.freeMap
    if fr.1 = -1 then (false, { st with freeMap := st.freeMapDisk })
    else
      let sector := toUnsigned fr.1
      let ares := dirAdd dir name sector false
      if !ares.1 then (false, { st with freeMap := st.freeMapDisk })
      else
        let eres := extend newFileHeader fr.2 initialSize
        if eres.1 then
          (true,
            { st with
                headers := updMap st.headers sector eres.2.1,
                dirs := updMap st.dirs dirSector ares.2,
                freeMap := eres.2.2, freeMapDisk := eres.2.2 })
        else (false, { st with freeMap := st.freeMapDisk })

/-- From `FileSystem::RemoveDirectory(path)`: the body after
`LoadDirectory` resolved the parent directory (sector `dirSector`) and the
final path component `name` was isolated.  Finds the target sub-directory,
fails when absent or non-empty, and otherwise immediately deallocates its
sectors, clears its header sector, flushes the free map, and removes its
row from the parent.  `none` models an assertion failure inside
`Deallocate`. -/
def removeDirectory (st : FMState) (dirSector : Nat) (name : String) :
    Option (Bool × FMState) :=
  let dir := st.dirs dirSector
  match dirFindDirectory dir name with
  | none => some (false, st)
  | some sector =>
    let dirToRemove := st.dirs sector
    if !dirIsEmpty dirToRemove then some (false, st)
    else
      (deallocate (st.headers sector) st.freeMap).map fun fm1 =>
        let fm2 := bmClear fm1 sector
        let r := dirRemove dir name
        (true,
          { st with
              freeMap := fm2, freeMapDisk := fm2,
              dirs := updMap st.dirs dirSector r.2 })

/-! ### Core map and address spaces

Translated from `userprog/core_map.cc`, `userprog/core_map.hh` and the
SWAP-enabled `userprog/address_space.cc` (demand loading with eviction).
Address spaces are identified by their pid; the live spaces are an
association list from pid to page table. -/

/-- From `machine/mmu.hh`: `NUM_PHYS_PAGES` in the SWAP build (the build in
which eviction exists). -/
def NUM_PHYS_PAGES : Nat := 20

/-- From `machine/translation_entry.hh`: one page-table row. -/
structure TranslationEntry where
  virtualPage : Nat
  physicalPage : Nat
  valid : Bool
  use : Bool
  dirty : Bool
  readOnly : Bool

/-- From `CoreMap::CoreMapEntry`: the back-reference of one physical frame.
`space = none` and `vpn = -1` (the unsigned wrap of `-1`) are the cleared
values. -/
structure CoreMapEntry where
  space : Option Nat
  vpn : Nat

/-- Kernel virtual-memory state: the core map (its bitmap and per-frame
back-references) and the live address spaces, pid to page table. -/
structure VMState where
  coreBits : Bitmap
  coreEntries : Nat → CoreMapEntry
  spaces : List (Nat × List TranslationEntry)

/-- First table of the pid among the live spaces. -/
def lookupSpace (spaces : List (Nat × List TranslationEntry)) (sid : Nat) :
    Option (List TranslationEntry) :=
  (List.find? (fun p => p.1 == sid) spaces).map (·.2)

/-- Replace the page table of the (first entry of the) pid. -/
def setSpace : List (Nat × List TranslationEntry) → Nat → List TranslationEntry →
    List (Nat × List TranslationEntry)
  | [], _, _ => []
  | p :: rest, sid, pt => if p.1 = sid then (sid, pt) :: rest else p :: setSpace rest sid pt

/-- From `CoreMap::GetSpace(frame)`. -/
def cmGetSpace (s : VMState) (frame : Nat) : Option Nat := (s.coreEntries frame).space

/-- From `CoreMap::GetVPN(frame)`. -/
def cmGetVPN (s : VMState) (frame : Nat) : Nat := (s.coreEntries frame).vpn

/-- From `CoreMap::Find(space, vpn)`: grab the first clear frame from the
bitmap and record the back-reference; returns `-1` with no change when
memory is full. -/
def cmFind (s : VMState) (sid vpn : Nat) : Int × VMState :=
  let r := bmFind s.coreBits
  if r.1 = -1 then (-1, { s with coreBits := r.2 })
  else (r.1,
    { s with
        coreBits := r.2,
        coreEntries := updMap s.coreEntries (toUnsigned r.1) ⟨some sid, vpn⟩ })

/-- From `CoreMap::Mark(frame, space, vpn)`. -/
def cmMark (s : VMState) (frame sid vpn : Nat) : VMState :=
  { s with
      coreBits := bmMark s.coreBits frame,
      coreEntries := updMap s.coreEntries frame ⟨some sid, vpn⟩ }

/-- From `CoreMap::Clear(frame)`. -/
def cmClear (s : VMState) (frame : Nat) : VMState :=
  { s with
      coreBits := bmClear s.coreBits frame,
      coreEntries := updMap s.coreEntries frame ⟨none, toUnsigned (-1)⟩ }

/-- From `AddressSpace::SendPageToSwap(vpn)`: invalidate the page-table row
(the swap-file write itself does not touch the core map). -/
def sendPageToSwap (pt : List TranslationEntry) (vpn : Nat) : List TranslationEntry :=
  match pt[vpn]? with
  | none => pt
  | some pte =>
    if pte.valid then pt.set vpn { pte with valid := false, dirty := false } else pt

/-- From `AddressSpace::LoadPage(vpn)` in the SWAP build: find a frame via
`CoreMap::Find`; when memory is full, evict `victim` (chosen by the
replacement policy, here a parameter): invalidate the victim owner's row
and re-mark the frame; then install the fresh page-table row.  `none`
models the asserts (`vpn < numPages`, `victim < NUM_PHYS_PAGES`, live
victim owner). -/
def vmLoadPage (s : VMState) (sid vpn victim : Nat) : Option VMState :=
  match lookupSpace s.spaces sid with
  | none => none
  | some pt =>
    if vpn < pt.length then
      let f := cmFind s sid vpn
      let framed : Option (Nat × VMState) :=
        if f.1 = -1 then
          if victim < NUM_PHYS_PAGES then
            match cmGetSpace f.2 victim with
            | none => none
            | some vsid =>
              match lookupSpace f.2.spaces vsid with
              | none => none
              | some vpt =>
                let victimPage := cmGetVPN f.2 victim
                let s1 := { f.2 with spaces := setSpace f.2.spaces vsid (sendPageToSwap vpt victimPage) }
                some (victim, cmMark s1 victim sid vpn)
          else none
        else some (toUnsigned f.1, f.2)
      framed.map fun fr =>
        let pt2 := (lookupSpace fr.2.spaces sid).getD pt
        let pte : TranslationEntry := ⟨vpn, fr.1, true, false, false, false⟩
        { fr.2 with spaces := setSpace fr.2.spaces sid (pt2.set vpn pte) }
    else none

/-- From the SWAP/DEMAND_LOADING `AddressSpace` constructor: all rows start
invalid with `virtualPage = i` (the physical page is junk until loaded). -/
def freshPageTable (numPages : Nat) : List TranslationEntry :=
  (List.range numPages).map fun i => ⟨i, 0, false, false, false, false⟩

/-- Frames cleared by the `AddressSpace` destructor: clear the core map at
each valid row's frame. -/
def cmClearValidFrames (s : VMState) : List TranslationEntry → VMState
  | [] => s
  | pte :: rest =>
    if pte.valid then cmClearValidFrames (cmClear s pte.physicalPage) rest
    else cmClearValidFrames s rest

/-- From `AddressSpace::~AddressSpace`: clear the core map for every valid
row, then drop the space. -/
def vmDestroySpace (s : VMState) (sid : Nat) : Option VMState :=
  match lookupSpace s.spaces sid with
  | none => none
  | some pt =>
    let s1 := cmClearValidFrames s pt
    some { s1 with spaces := s1.spaces.filter (fun p => p.1 ≠ sid) }

/-- From the `AddressSpace` constructor: register a fresh space (fresh pid,
a demand-loaded page table). -/
def vmCreateSpace (s : VMState) (sid numPages : Nat) : VMState :=
  { s with spaces := (sid, freshPageTable numPages) :: s.spaces }

/-- The kernel operations that touch the core map or the page tables. -/
inductive VMStep : VMState → VMState → Prop
  | create (s : VMState) (sid numPages : Nat) :
      lookupSpace s.spaces sid = none → VMStep s (vmCreateSpace s sid numPages)
  | load (s s' : VMState) (sid vpn victim : Nat) :
      vmLoadPage s sid vpn victim = some s' → VMStep s s'
  | destroy (s s' : VMState) (sid : Nat) :
      vmDestroySpace s sid = some s' → VMStep s s'

/-- Page-table/core-map agreement: every valid page-table row of every live
space points at a frame that is occupied in the core map with back-reference
equal to that space and that row's virtual page (which equals the row's
index), plus the structural facts that make the agreement inductive. -/
def vmInv (s : VMState) : Prop :=
  s.coreBits.length = NUM_PHYS_PAGES ∧
  (s.spaces.map Prod.fst).Nodup ∧
  ∀ p ∈ s.spaces, ∀ i : Nat, ∀ pte : TranslationEntry, p.2[i]? = some pte →
    pte.virtualPage = i ∧
    (pte.valid = true →
      pte.physicalPage < NUM_PHYS_PAGES ∧
      bmTest s.coreBits pte.physicalPage = true ∧
      cmGetSpace s pte.physicalPage = some p.1 ∧
      cmGetVPN s pte.physicalPage = i)

/-! ### Read-write lock

Translated from `threads/rwlock.cc`.  The procedures are serialised by the
internal `Lock`; `RWOutcome.wouldWait` summarises every run in which the
caller suspends (on the internal lock or inside the Mesa wait loop) before
its atomic commit, and `assertFail` an assertion failure. -/

/-- The fields of `RWLock`, including its internal lock and condition
queue so that the no-op frame claim is expressible. -/
structure RWLockState where
  lockHolder : Option Nat
  condQueue : List Nat
  activeReaders : Nat
  waitingWriters : Nat
  activeWriter : Option Nat
deriving DecidableEq

/-- Result of one call to a lock procedure by a given thread. -/
inductive RWOutcome where
  | ret (st : RWLockState)
  | wouldWait
  | assertFail
deriving DecidableEq

/-- From `RWLock::AcquireRead()` called by thread `t`: reentrant no-op for
the active writer; otherwise the caller commits `activeReaders++` only when
the internal lock is free and no writer is waiting or active. -/
def acquireRead (t : Nat) (st : RWLockState) : RWOutcome :=
  if st.activeWriter = some t then .ret st
  else if st.lockHolder ≠ none then .wouldWait
  else if st.waitingWriters > 0 ∨ st.activeWriter ≠ none then .wouldWait
  else .ret { st with activeReaders := st.activeReaders + 1 }

/-- From `RWLock::ReleaseRead()` called by thread `t`: reentrant no-op for
the active writer; otherwise asserts no active writer and a positive reader
count, decrements, and broadcasts when the count reaches zero. -/
def releaseRead (t : Nat) (st : RWLockState) : RWOutcome :=
  if st.activeWriter = some t then .ret st
  else if st.lockHolder ≠ none then .wouldWait
  else if st.activeWriter = none ∧ st.activeReaders > 0 then
    let n := st.activeReaders - 1
    .ret { st with activeReaders := n, condQueue := if n = 0 then [] else st.condQueue }
  else .assertFail

/-! ### Writer exclusion for `SynchOpenFile`

`SynchOpenFile::ReadAt`/`WriteAt` bracket the underlying file access with
the per-file RW-lock.  The interleavings of the threads sharing one file
are modelled as a transition system: each thread is `idle`, waiting for or
holding the read side (its `OpenFile::ReadAt` runs while `reading`), or
waiting for or holding the write side (its `OpenFile::WriteAt` runs while
`writing`).  Guards are the atomic commits of the Mesa wait loops of
`RWLock::AcquireRead`/`AcquireWrite` under the internal lock, releases
follow `RWLock::ReleaseRead`/`ReleaseWrite`. -/

/-- Phase of one thread operating on the shared `SynchOpenFile`. -/
inductive RWPhase where
  | idle
  | wantRead
  | reading
  | wantWrite
  | writing
deriving DecidableEq

/-- Lock fields plus the per-thread phases (thread = list index). -/
structure RWSys where
  activeReaders : Nat
  waitingWriters : Nat
  activeWriter : Option Nat
  phases : List RWPhase
deriving DecidableEq

/-- Number of threads currently in a given phase. -/
def countPhase (x : RWPhase) : List RWPhase → Nat
  | [] => 0
  | p :: rest => (if p = x then 1 else 0) + countPhase x rest

/-- One interleaving step of the threads sharing the file. -/
inductive RWSysStep : RWSys → RWSys → Prop
  | startRead (s : RWSys) (i : Nat) (h : s.phases[i]? = some .idle) :
      RWSysStep s { s with phases := s.phases.set i .wantRead }
  | enterRead (s : RWSys) (i : Nat) (h : s.phases[i]? = some .wantRead)
      (hw : s.waitingWriters = 0) (ha : s.activeWriter = none) :
      RWSysStep s
        { s with
            phases := s.phases.set i .reading,
            activeReaders := s.activeReaders + 1 }
  | exitRead (s : RWSys) (i : Nat) (h : s.phases[i]? = some .reading)
      (ha : s.activeWriter = none) (hr : s.activeReaders > 0) :
      RWSysStep s
        { s with
            phases := s.phases.set i .idle,
            activeReaders := s.activeReaders - 1 }
  | startWrite (s : RWSys) (i : Nat) (h : s.phases[i]? = some .idle) :
      RWSysStep s
        { s with
            phases := s.phases.set i .wantWrite,
            waitingWriters := s.waitingWriters + 1 }
  | enterWrite (s : RWSys) (i : Nat) (h : s.phases[i]? = some .wantWrite)
      (hr : s.activeReaders = 0) (ha : s.activeWriter = none) :
      RWSysStep s
        { s with
            phases := s.phases.set i .writing,
            waitingWriters := s.waitingWriters - 1, activeWriter := some i }
  | exitWrite (s : RWSys) (i : Nat) (h : s.phases[i]? = some .writing)
      (ha : s.activeWriter = some i) (hr : s.activeReaders = 0) :
      RWSysStep s { s with phases := s.phases.set i .idle, activeWriter := none }

/-- All threads idle on a freshly constructed `RWLock`. -/
def rwInit (n : Nat) : RWSys :=
  { activeReaders := 0, waitingWriters := 0, activeWriter := none,
    phases := List.replicate n .idle }

/-- States reachable by interleaving the threads from the initial state. -/
def rwReachable (n : Nat) (s : RWSys) : Prop :=
  Relation.ReflTransGen RWSysStep (rwInit n) s

/-- The inductive invariant of the per-file RW-lock protocol. -/
def rwInv (s : RWSys) : Prop :=
  s.activeReaders = countPhase .reading s.phases ∧
  (∀ i : Nat, s.phases[i]? = some .writing ↔ s.activeWriter = some i) ∧
  (s.activeWriter ≠ none → countPhase .reading s.phases = 0)

/-! ### System-call surface

Translated from `userprog/exception.cc` and `userprog/transfer.cc`.  User
memory is a total byte store (the MMU retries page faults until the access
succeeds).  The file system, console and process table are oracle
parameters; each handler records the value written to the result register
`r2` and its externally visible actions. -/

/-- Simulated user memory: byte at each address. -/
def UserMem : Type := Nat → Nat

/-- From `ReadStringFromUser(userAddress, outString, maxByteCount)`: copy
bytes until a null within the bound; `some` holds the string content
(without the terminator), `none` means no terminator was found within the
bound. -/
def readStringFromUser (mem : UserMem) (addr : Nat) : Nat → Option (List Nat)
  | 0 => none
  | n + 1 =>
    let b := mem addr
    if b = 0 then some [] else (b :: ·) <$> readStringFromUser mem (addr + 1) n

/-- `sizeof buffer` where `buffer` is a `char *` function parameter: the
host pointer width, 8 bytes. -/
def SIZEOF_CHAR_PTR : Nat := 8

/-- From `ReadStringFromFirstArgument(buffer)`: null-pointer check, then
`ReadStringFromUser(filenameAddr, buffer, sizeof buffer)` — the bound is
`sizeof` of the decayed `char *` parameter, not the array size. -/
def readStringFromFirstArgument (mem : UserMem) (r4 : Nat) : Option (List Nat) :=
  if r4 = 0 then none else readStringFromUser mem r4 SIZEOF_CHAR_PTR

/-- Register write and file-system name reached by a path syscall handler. -/
structure HandlerOut where
  r2 : Option Int
  fsName : Option (List Nat)
deriving DecidableEq

/-- From `HandleCreate()`: `fsCreate` is the `fileSystem->Create(_, 0)`
oracle. -/
def handleCreate (mem : UserMem) (r4 : Nat) (fsCreate : List Nat → Bool) : HandlerOut :=
  match readStringFromFirstArgument mem r4 with
  | none => ⟨some (-1), none⟩
  | some s => if fsCreate s then ⟨some 0, some s⟩ else ⟨some (-1), some s⟩

/-- From `HandleRemove()`: `fsRemove` is the `fileSystem->Remove` oracle. -/
def handleRemove (mem : UserMem) (r4 : Nat) (fsRemove : List Nat → Bool) : HandlerOut :=
  match readStringFromFirstArgument mem r4 with
  | none => ⟨some (-1), none⟩
  | some s => if fsRemove s then ⟨some 0, some s⟩ else ⟨some (-1), some s⟩

/-- Modelled from the spec: the per-thread open-file table (`lib/table.hh`
is not among the sources); a bounded array of slots, `Add` fills the first
free slot and returns its key, or `-1` when full (here `none`). -/
def tableAdd (table : List (Option Nat)) (f : Nat) : Option (Nat × List (Option Nat)) :=
  match List.findIdx? Option.isNone table with
  | some k => some (k, table.set k (some f))
  | none => none

/-- From `HandleOpen()`: `fsOpen` is the `fileSystem->Open` oracle giving
the opened file; the result register gets the table key plus 2. -/
def handleOpen (mem : UserMem) (r4 : Nat) (fsOpen : List Nat → Option Nat)
    (table : List (Option Nat)) : HandlerOut × List (Option Nat) :=
  match readStringFromFirstArgument mem r4 with
  | none => (⟨some (-1), none⟩, table)
  | some s =>
    match fsOpen s with
    | none => (⟨some (-1), some s⟩, table)
    | some f =>
      match tableAdd table f with
      | none => (⟨some (-1), some s⟩, table)
      | some kt => (⟨some ((kt.1 : Int) + 2), some s⟩, kt.2)

/-- From `HandleExec()`: `fsOpen` is the `fileSystem->Open` oracle,
`ptAdd` the `processTable->Add` oracle giving the new pid. -/
def handleExec (mem : UserMem) (r4 : Nat) (fsOpen : List Nat → Option Nat)
    (ptAdd : Option Nat) : HandlerOut :=
  match readStringFromFirstArgument mem r4 with
  | none => ⟨some (-1), none⟩
  | some s =>
    match fsOpen s with
    | none => ⟨some (-1), some s⟩
    | some _ =>
      match ptAdd with
      | none => ⟨some (-1), some s⟩
      | some pid => ⟨some (pid : Int), some s⟩

/-- From `HandleCD()`: reads the path (reporting failure), then does
nothing (`TODO: implement`): no file-system call, no result on success. -/
def handleCD (mem : UserMem) (r4 : Nat) : HandlerOut :=
  match readStringFromFirstArgument mem r4 with
  | none => ⟨some (-1), none⟩
  | some _ => ⟨none, none⟩

/-- From `HandleMkdir()`: reads the path but ignores the result of
`ReadStringFromFirstArgument`, then does nothing (`TODO: implement`):
no register write and no file-system call on any input. -/
def handleMkdir (_mem : UserMem) (_r4 : Nat) : HandlerOut := ⟨none, none⟩

/-- From `HandleLs()`: reads the path but ignores the result of
`ReadStringFromFirstArgument`, then does nothing (`TODO: implement`). -/
def handleLs (_mem : UserMem) (_r4 : Nat) : HandlerOut := ⟨none, none⟩

/-- Visible outcome of `HandleRead`/`HandleWrite`: result register, whether
the console was accessed, which open file was accessed, and whether user
memory was written. -/
structure IOOut where
  r2 : Option Int
  console : Bool
  fileAccess : Option Nat
  wroteUser : Bool
deriving DecidableEq

/-- `table.HasKey(key)/Get(key)` of the per-thread open-file table. -/
def tableGet (table : List (Option Nat)) (key : Nat) : Option Nat :=
  (table.getD key none)

/-- From `HandleRead()`: arguments `r4` = buffer address, `r5` = size,
`r6` = file descriptor; `consoleReadBytes` and `fileReadBytes` are the
`synchConsole->Read` and `file->Read` oracles. -/
def handleRead (r4 r5 : Nat) (r6 : Int) (table : List (Option Nat))
    (consoleReadBytes : Int) (fileReadBytes : Nat → Int) : IOOut :=
  if r4 = 0 then ⟨some (-1), false, none, false⟩
  else if r5 = 0 then ⟨some (-1), false, none, false⟩
  else if r6 < 0 then ⟨some (-1), false, none, false⟩
  else if r6 = 0 then ⟨some consoleReadBytes, true, none, 0 < consoleReadBytes⟩
  else if r6 = 1 then ⟨some (-1), false, none, false⟩
  else
    let key := (r6 - 2).toNat
    match tableGet table key with
    | none => ⟨some (-1), false, none, false⟩
    | some f =>
      let n := fileReadBytes f
      ⟨some n, false, some f, 0 < n⟩

/-- From `HandleWrite()`: arguments `r4` = buffer address, `r5` = size,
`r6` = file descriptor; `fileWriteBytes` is the `file->Write` oracle; a
console write transfers `size` bytes and reports `size`. -/
def handleWrite (r4 r5 : Nat) (r6 : Int) (table : List (Option Nat))
    (fileWriteBytes : Nat → Int) : IOOut :=
  if r4 = 0 then ⟨some (-1), false, none, false⟩
  else if r5 = 0 then ⟨some (-1), false, none, false⟩
  else if r6 < 0 then ⟨some (-1), false, none, false⟩
  else if r6 = 0 then ⟨some (-1), false, none, false⟩
  else if r6 = 1 then ⟨some (r5 : Int), true, none, false⟩
  else
    let key := (r6 - 2).toNat
    match tableGet table key with
    | none => ⟨some (-1), false, none, false⟩
    | some f => ⟨some (fileWriteBytes f), false, some f, false⟩

/-- From `HandleClose()`: result register, table afterwards, and the file
handed to `fileSystem->Close`, if any. -/
def handleClose (r4 : Int) (table : List (Option Nat)) :
    Option Int × List (Option Nat) × Option Nat :=
  if r4 < 0 then (some (-1), table, none)
  else if r4 = 0 then (some (-1), table, none)
  else if r4 = 1 then (some (-1), table, none)
  else
    let key := (r4 - 2).toNat
    match tableGet table key with
    | none => (some (-1), table, none)
    | some f => (some 0, table.set key none, some f)

/-! ### Concrete example states for the witnesses -/

/-- User memory holding an eight-character name (bytes 97 = `a`) at
address 100, null-terminated at 108. -/
def memC10 : UserMem := fun a => if 100 ≤ a ∧ a < 108 then 97 else 0

/-- Parent directory (sector 1) holding one open, empty sub-directory `d`
whose header lives at sector 5 and whose open-file reference count is 1. -/
def stC5 : FMState :=
  { dirs := fun j => if j = 1 then [⟨true, true, false, "d", 5⟩] else [],
    headers := fun _ => newFileHeader,
    freeMap := [true, true, false, false, false, true],
    freeMapDisk := [true, true, false, false, false, true],
    openFiles := [(5, ⟨1, 1, newFileHeader⟩)] }

/-- A one-data-sector file header at sector 5, its data in sector 6. -/
def hdrC1 : FileHeader :=
  { raw := ⟨10, 1, fun _ => 6, 0, 0⟩,
    indirectDataSectors := fun _ => 0,
    doubleIndirectSectors := fun _ => 0,
    doubleIndirectDataSectors := fun _ _ => 0 }

/-- Root directory (sector 1) with one open file `f` (header sector 5, data
sector 6, reference count 1). -/
def stC1 : FMState :=
  { dirs := fun j => if j = 1 then [⟨true, false, false, "f", 5⟩] else [],
    headers := fun _ => hdrC1,
    freeMap := [true, true, false, false, false, true, true],
    freeMapDisk := [true, true, false, false, false, true, true],
    openFiles := [(5, ⟨1, 1, hdrC1⟩)] }

/-- The directory row of the open file `f` in `stC1`. -/
def entryC1 : DirEntry := ⟨true, false, false, "f", 5⟩

/-- The open-file cache entry of `f` in `stC1`. -/
def infoC1 : OpenInfo := ⟨1, 1, hdrC1⟩

/-- A reachable state of one thread holding the write side of the RW-lock. -/
def sWriting : RWSys :=
  { activeReaders := 0, waitingWriters := 0, activeWriter := some 0,
    phases := [.writing] }

/-- A virtual-memory state with an empty core map and one live space (pid 0,
one demand-loaded page). -/
def vmEx : VMState :=
  { coreBits := List.replicate NUM_PHYS_PAGES false,
    coreEntries := fun _ => ⟨none, toUnsigned (-1)⟩,
    spaces := [(0, freshPageTable 1)] }

/-- The state after demand-loading page 0 of pid 0 in `vmEx`. -/
def vmEx2 : VMState := (vmLoadPage vmEx 0 0 0).getD vmEx

/-! ## Theorems -/

/-- Dividing a strictly smaller offset cannot reach the rounded-up sector
count. -/
theorem div_lt_divRoundUp (offset nb s : Nat) (hs : 0 < s) (h : offset < nb) :
    offset / s < divRoundUp nb s := by
  unfold divRoundUp
  split_ifs with hmod
  · have h2 : offset / s ≤ nb / s := Nat.div_le_div_right (le_of_lt h)
    omega
  · have hdvd : s ∣ nb := Nat.dvd_of_mod_eq_zero (by omega)
    rw [Nat.add_zero, Nat.div_lt_iff_lt_mul hs, Nat.div_mul_cancel hdvd]
    exact h

/-- The allocation body always sets `numBytes` to the extended size. -/
theorem extendAlloc_numBytes (h : FileHeader) (fm : Bitmap) (bytes : Nat) :
    (extendAlloc h fm bytes).1.raw.numBytes = h.raw.numBytes + bytes := by
  simp only [extendAlloc]
  split_ifs <;> rfl

/-- Claim C3: `FileHeader::Extend(freeMap, b)` returns false exactly when
`numBytes + b` exceeds `MAX_FILE_SIZE` or the bitmap's clear count is below
the delta of `CalculateRequiredSectors`; on failure no bit of the bitmap is
touched and `FileLength()` is unchanged; on success `numBytes` grows by
exactly `b`. -/
theorem c3_extend_all_or_nothing (h : FileHeader) (fm : Bitmap) (b : Nat) :
    ((extend h fm b).1 = false ↔
      (h.raw.numBytes + b > MAX_FILE_SIZE ∨
        bmCountClear fm <
          calculateRequiredSectors (h.raw.numBytes + b) -
            calculateRequiredSectors h.raw.numBytes)) ∧
    ((extend h fm b).1 = false →
      (extend h fm b).2.2 = fm ∧ fileLength (extend h fm b).2.1 = fileLength h) ∧
    ((extend h fm b).1 = true → fileLength (extend h fm b).2.1 = fileLength h + b) := by
  simp only [extend]
  split_ifs with h1 h2 <;>
    simp_all [fileLength, extendAlloc_numBytes]

/-- Claim C3 witness: a concrete failing call (empty bitmap, one byte)
leaves the length and bitmap unchanged. -/
theorem c3_extend_all_or_nothing_witness :
    ((extend newFileHeader [] 1).1 = false ↔
      (newFileHeader.raw.numBytes + 1 > MAX_FILE_SIZE ∨
        bmCountClear [] <
          calculateRequiredSectors (newFileHeader.raw.numBytes + 1) -
            calculateRequiredSectors newFileHeader.raw.numBytes)) ∧
    ((extend newFileHeader [] 1).1 = false →
      (extend newFileHeader [] 1).2.2 = [] ∧
        fileLength (extend newFileHeader [] 1).2.1 = fileLength newFileHeader) ∧
    ((extend newFileHeader [] 1).1 = true →
      fileLength (extend newFileHeader [] 1).2.1 = fileLength newFileHeader + 1) :=
  c3_extend_all_or_nothing newFileHeader [] 1

/-- Claim C6: for `offset < numBytes`, `ByteToSector(offset)` with
`i = offset / SECTOR_SIZE` returns `dataSectors[i]` for `i < NUM_DIRECT`,
`indirectDataSectors[i - NUM_DIRECT]` for `i < NUM_DIRECT + NUM_INDIRECT`,
and otherwise the double-indirect cell at row
`(i - NUM_DIRECT - NUM_INDIRECT) / NUM_INDIRECT`, column
`(i - NUM_DIRECT - NUM_INDIRECT) % NUM_INDIRECT`. -/
theorem c6_byteToSector_mapping (h : FileHeader) (offset : Nat)
    (hsect : h.raw.numSectors = divRoundUp h.raw.numBytes SECTOR_SIZE)
    (hoff : offset < h.raw.numBytes) :
    byteToSector h offset =
      some (if offset / SECTOR_SIZE < NUM_DIRECT then
          h.raw.dataSectors (offset / SECTOR_SIZE)
        else if offset / SECTOR_SIZE < NUM_DIRECT + NUM_INDIRECT then
          h.indirectDataSectors (offset / SECTOR_SIZE - NUM_DIRECT)
        else
          h.doubleIndirectDataSectors
            ((offset / SECTOR_SIZE - NUM_DIRECT - NUM_INDIRECT) / NUM_INDIRECT)
            ((offset / SECTOR_SIZE - NUM_DIRECT - NUM_INDIRECT) % NUM_INDIRECT)) := by
  have hi : offset / SECTOR_SIZE < h.raw.numSectors := by
    rw [hsect]
    exact div_lt_divRoundUp offset h.raw.numBytes SECTOR_SIZE (by norm_num [SECTOR_SIZE]) hoff
  unfold byteToSector getSector
  rw [if_pos hoff, if_pos hi]

/-- Claim C6 witness: the mapping evaluated on a one-sector file. -/
theorem c6_byteToSector_mapping_witness :
    byteToSector
      { raw := ⟨10, 1, fun _ => 7, 0, 0⟩,
        indirectDataSectors := fun _ => 0,
        doubleIndirectSectors := fun _ => 0,
        doubleIndirectDataSectors := fun _ _ => 0 } 3 =
      some (if 3 / SECTOR_SIZE < NUM_DIRECT then
          (fun (_ : Nat) => 7) (3 / SECTOR_SIZE)
        else if 3 / SECTOR_SIZE < NUM_DIRECT + NUM_INDIRECT then
          (fun (_ : Nat) => 0) (3 / SECTOR_SIZE - NUM_DIRECT)
        else
          (fun (_ _ : Nat) => 0)
            ((3 / SECTOR_SIZE - NUM_DIRECT - NUM_INDIRECT) / NUM_INDIRECT)
            ((3 / SECTOR_SIZE - NUM_DIRECT - NUM_INDIRECT) % NUM_INDIRECT)) :=
  c6_byteToSector_mapping
    { raw := ⟨10, 1, fun _ => 7, 0, 0⟩,
      indirectDataSectors := fun _ => 0,
      doubleIndirectSectors := fun _ => 0,
      doubleIndirectDataSectors := fun _ _ => 0 } 3
    (by norm_num [divRoundUp, SECTOR_SIZE]) (by norm_num)

/-- Claim C7: a thread that is the RW-lock's active writer gets an
immediate no-op from both `AcquireRead` and `ReleaseRead`: no blocking and
no change to `activeReaders`, `waitingWriters`, `activeWriter`, the
internal lock or the condition queue (the returned state is the input
state, unchanged in every field). -/
theorem c7_rwlock_writer_reentrancy (t : Nat) (st : RWLockState)
    (hw : st.activeWriter = some t) :
    acquireRead t st = RWOutcome.ret st ∧ releaseRead t st = RWOutcome.ret st := by
  constructor <;> simp [acquireRead, releaseRead, hw]

/-- Claim C7 witness: the no-op on a concrete contended state (lock held by
another thread, writers waiting) whose active writer re-enters. -/
theorem c7_rwlock_writer_reentrancy_witness :
    acquireRead 3 ⟨some 9, [4, 5], 0, 2, some 3⟩ =
      RWOutcome.ret ⟨some 9, [4, 5], 0, 2, some 3⟩ ∧
    releaseRead 3 ⟨some 9, [4, 5], 0, 2, some 3⟩ =
      RWOutcome.ret ⟨some 9, [4, 5], 0, 2, some 3⟩ :=
  c7_rwlock_writer_reentrancy 3 ⟨some 9, [4, 5], 0, 2, some 3⟩ rfl

/-- Claim C9: reserved-descriptor behaviour of the syscall surface.  `Open`
writes a descriptor ≥ 2 (table key plus 2) whenever it does not report
`-1`; `Read` on descriptor 1 (console output), `Write` on descriptor 0
(console input), and `Close` on 0 or 1 each report `-1` with no console or
file access, no user-memory write, and an unchanged table, as do `Read`
and `Write` with a null buffer pointer or a zero size. -/
theorem c9_reserved_descriptors :
    (∀ (mem : UserMem) (r4 : Nat) (fsOpen : List Nat → Option Nat)
        (table : List (Option Nat)) (v : Int),
      (handleOpen mem r4 fsOpen table).1.r2 = some v → v = -1 ∨ 2 ≤ v) ∧
    (∀ (r4 r5 : Nat) (table : List (Option Nat)) (cr : Int) (fr : Nat → Int),
      handleRead r4 r5 1 table cr fr = ⟨some (-1), false, none, false⟩) ∧
    (∀ (r5 : Nat) (r6 : Int) (table : List (Option Nat)) (cr : Int) (fr : Nat → Int),
      handleRead 0 r5 r6 table cr fr = ⟨some (-1), false, none, false⟩) ∧
    (∀ (r4 : Nat) (r6 : Int) (table : List (Option Nat)) (cr : Int) (fr : Nat → Int),
      handleRead r4 0 r6 table cr fr = ⟨some (-1), false, none, false⟩) ∧
    (∀ (r4 r5 : Nat) (table : List (Option Nat)) (fw : Nat → Int),
      handleWrite r4 r5 0 table fw = ⟨some (-1), false, none, false⟩) ∧
    (∀ (r5 : Nat) (r6 : Int) (table : List (Option Nat)) (fw : Nat → Int),
      handleWrite 0 r5 r6 table fw = ⟨some (-1), false, none, false⟩) ∧
    (∀ (r4 : Nat) (r6 : Int) (table : List (Option Nat)) (fw : Nat → Int),
      handleWrite r4 0 r6 table fw = ⟨some (-1), false, none, false⟩) ∧
    (∀ table : List (Option Nat),
      handleClose 0 table = (some (-1), table, none) ∧
      handleClose 1 table = (some (-1), table, none)) := by
  refine ⟨?_, ?_, ?_, ?_, ?_, ?_, ?_, ?_⟩
  · intro mem r4 fsOpen table v hv
    rcases hrs : readStringFromFirstArgument mem r4 with _ | st
    · simp [handleOpen, hrs] at hv; omega
    · rcases hfo : fsOpen st with _ | f
      · simp [handleOpen, hrs, hfo] at hv; omega
      · rcases hta : tableAdd table f with _ | kt
        · simp [handleOpen, hrs, hfo, hta] at hv; omega
        · simp [handleOpen, hrs, hfo, hta] at hv; omega
  · intro r4 r5 table cr fr
    unfold handleRead
    split_ifs <;> simp_all
  · intro r5 r6 table cr fr
    unfold handleRead
    split_ifs <;> simp_all
  · intro r4 r6 table cr fr
    unfold handleRead
    split_ifs <;> simp_all
  · intro r4 r5 table fw
    unfold handleWrite
    split_ifs <;> simp_all
  · intro r5 r6 table fw
    unfold handleWrite
    split_ifs <;> simp_all
  · intro r4 r6 table fw
    unfold handleWrite
    split_ifs <;> simp_all
  · intro table
    constructor <;> (unfold handleClose; split_ifs <;> simp_all)

/-- Claim C9 witness: a concrete successful `Open` yields descriptor 2, and
the reserved-descriptor rejections evaluated on concrete arguments. -/
theorem c9_reserved_descriptors_witness :
    ((2 : Int) = -1 ∨ 2 ≤ (2 : Int)) ∧
    handleRead 5 1 1 [] 0 (fun _ => 0) = ⟨some (-1), false, none, false⟩ ∧
    handleWrite 5 1 0 [] (fun _ => 0) = ⟨some (-1), false, none, false⟩ ∧
    handleClose 0 [] = (some (-1), [], none) :=
  ⟨c9_reserved_descriptors.1 (fun _ => 0) 4 (fun _ => some 7) [none] 2 (by decide),
    c9_reserved_descriptors.2.1 5 1 [] 0 (fun _ => 0),
    c9_reserved_descriptors.2.2.2.2.1 5 1 [] (fun _ => 0),
    (c9_reserved_descriptors.2.2.2.2.2.2.2 []).1⟩

/-- A user string with no null byte within the bound is reported as
over-long. -/
theorem readStringFromUser_none (mem : UserMem) (addr n : Nat)
    (h : ∀ i < n, mem (addr + i) ≠ 0) : readStringFromUser mem addr n = none := by
  induction n generalizing addr with
  | zero => rfl
  | succ n ih =>
    have h0 : mem addr ≠ 0 := by simpa using h 0 (Nat.succ_pos n)
    simp only [readStringFromUser, if_neg h0, Option.map_eq_map]
    rw [ih (addr + 1) (fun i hi => by
      have h2 := h (i + 1) (by omega)
      rwa [show addr + (i + 1) = addr + 1 + i by omega] at h2)]
    rfl

/-- A successfully copied user string is strictly shorter than the bound. -/
theorem readStringFromUser_length (mem : UserMem) (addr n : Nat) (s : List Nat)
    (h : readStringFromUser mem addr n = some s) : s.length < n := by
  induction n generalizing addr s with
  | zero => simp [readStringFromUser] at h
  | succ n ih =>
    by_cases h0 : mem addr = 0
    · simp only [readStringFromUser, if_pos h0, Option.some.injEq] at h
      subst h; simp
    · simp only [readStringFromUser, if_neg h0, Option.map_eq_map, Option.map_eq_some'] at h
      obtain ⟨t, ht, rfl⟩ := h
      simpa using ih (addr + 1) t ht

/-- Claim C10 counterexample: on an eight-character path (well within any
name limit) the `CreateDirectory` handler neither reports the over-long
string nor writes `-1` — it ignores the failed `ReadStringFromFirstArgument`
and writes no result register at all, refuting the claim that every listed
handler returns `-1` on such arguments. -/
theorem c10_counterexample :
    readStringFromFirstArgument memC10 100 = none ∧
    (handleMkdir memC10 100).r2 = none ∧
    (handleMkdir memC10 100).r2 ≠ some (-1) := by
  refine ⟨by decide, rfl, by decide⟩

/-- Claim C10 (amended): every handler that obtains its path through
`ReadStringFromFirstArgument` bounds the copy by `sizeof` of the decayed
`char *` parameter — 8 bytes — so an argument of 8 or more characters is
treated as over-long: `Create`, `Remove`, `Open`, `Exec` and
`ChangeDirectory` report `-1` without reaching the file system, while
`CreateDirectory` and `ListDirectoryContents` ignore the failed read, write
no result, and never call the file system (and no `RemoveDirectory`
handler exists); in all cases only paths of at most 7 characters reach the
file system. -/
theorem c10_amended_string_bound (mem : UserMem) (r4 : Nat)
    (fsC fsR : List Nat → Bool) (fsO : List Nat → Option Nat)
    (table : List (Option Nat)) (ptAdd : Option Nat) :
    ((∀ i < SIZEOF_CHAR_PTR, mem (r4 + i) ≠ 0) →
      handleCreate mem r4 fsC = ⟨some (-1), none⟩ ∧
      handleRemove mem r4 fsR = ⟨some (-1), none⟩ ∧
      handleOpen mem r4 fsO table = (⟨some (-1), none⟩, table) ∧
      handleExec mem r4 fsO ptAdd = ⟨some (-1), none⟩ ∧
      handleCD mem r4 = ⟨some (-1), none⟩ ∧
      handleMkdir mem r4 = ⟨none, none⟩ ∧
      handleLs mem r4 = ⟨none, none⟩) ∧
    (∀ s, (handleCreate mem r4 fsC).fsName = some s → s.length < SIZEOF_CHAR_PTR) ∧
    (∀ s, (handleRemove mem r4 fsR).fsName = some s → s.length < SIZEOF_CHAR_PTR) ∧
    (∀ s, (handleOpen mem r4 fsO table).1.fsName = some s → s.length < SIZEOF_CHAR_PTR) ∧
    (∀ s, (handleExec mem r4 fsO ptAdd).fsName = some s → s.length < SIZEOF_CHAR_PTR) := by
  have hbound : ∀ s, readStringFromFirstArgument mem r4 = some s →
      s.length < SIZEOF_CHAR_PTR := by
    intro s hs
    unfold readStringFromFirstArgument at hs
    split_ifs at hs
    exact readStringFromUser_length mem r4 SIZEOF_CHAR_PTR s hs
  constructor
  · intro hlong
    have hnone : readStringFromFirstArgument mem r4 = none := by
      unfold readStringFromFirstArgument
      split_ifs with h0
      · rfl
      · exact readStringFromUser_none mem r4 SIZEOF_CHAR_PTR hlong
    refine ⟨?_, ?_, ?_, ?_, ?_, rfl, rfl⟩ <;>
      simp [handleCreate, handleRemove, handleOpen, handleExec, handleCD, hnone]
  · have h1 : (handleCreate mem r4 fsC).fsName = readStringFromFirstArgument mem r4 := by
      rcases hrs : readStringFromFirstArgument mem r4 with _ | t <;>
        simp [handleCreate, hrs] <;> split_ifs <;> rfl
    have h2 : (handleRemove mem r4 fsR).fsName = readStringFromFirstArgument mem r4 := by
      rcases hrs : readStringFromFirstArgument mem r4 with _ | t <;>
        simp [handleRemove, hrs] <;> split_ifs <;> rfl
    have h3 : (handleOpen mem r4 fsO table).1.fsName = readStringFromFirstArgument mem r4 := by
      rcases hrs : readStringFromFirstArgument mem r4 with _ | t
      · simp [handleOpen, hrs]
      · rcases hfo : fsO t with _ | f
        · simp [handleOpen, hrs, hfo]
        · rcases hta : tableAdd table f with _ | kt <;> simp [handleOpen, hrs, hfo, hta]
    have h4 : (handleExec mem r4 fsO ptAdd).fsName = readStringFromFirstArgument mem r4 := by
      rcases hrs : readStringFromFirstArgument mem r4 with _ | t
      · simp [handleExec, hrs]
      · rcases hfo : fsO t with _ | f
        · simp [handleExec, hrs, hfo]
        · rcases hpt : ptAdd with _ | pid <;> simp [handleExec, hrs, hfo, hpt]
    refine ⟨?_, ?_, ?_, ?_⟩ <;> intro s hsn
    · exact hbound s (h1 ▸ hsn)
    · exact hbound s (h2 ▸ hsn)
    · exact hbound s (h3 ▸ hsn)
    · exact hbound s (h4 ▸ hsn)

/-- Claim C10 witness: the amended bound evaluated on the concrete
eight-character path. -/
theorem c10_amended_string_bound_witness :
    handleCreate memC10 100 (fun _ => true) = ⟨some (-1), none⟩ ∧
    handleMkdir memC10 100 = ⟨none, none⟩ :=
  ⟨((c10_amended_string_bound memC10 100 (fun _ => true) (fun _ => true)
      (fun _ => none) [] none).1 (by decide)).1,
    ((c10_amended_string_bound memC10 100 (fun _ => true) (fun _ => true)
      (fun _ => none) [] none).1 (by decide)).2.2.2.2.2.1⟩

/-- The extended directory's `Add` never fails (growth is unbounded). -/
theorem dirAdd_fst (table : List DirEntry) (name : String) (sector : Nat) (isDir : Bool) :
    (dirAdd table name sector isDir).1 = true := by
  induction table with
  | nil => rfl
  | cons e rest ih => simp only [dirAdd]; split_ifs <;> simpa using ih

/-- Claim C2: when the parent directory of `CreateFile(path, size)` resolves,
a name collision, a failed header-sector `Find`, or a failed data-block
allocation makes the call return false with the in-memory free map
re-fetched from the persisted free-map file and no persisted state changed;
a true return means the new header, the parent directory and the free map
have all been written back. -/
theorem c2_createFile_failure_rollback (st : FMState) (dirSector : Nat)
    (name : String) (size : Nat) :
    ((dirHasEntry (st.dirs dirSector) name = true ∨
      (bmFind st.freeMap).1 = -1 ∨
      (extend newFileHeader (bmFind st.freeMap).2 size).1 = false) →
      (createFile st dirSector name size).1 = false) ∧
    ((createFile st dirSector name size).1 = false →
      (createFile st dirSector name size).2.freeMap = st.freeMapDisk ∧
      (createFile st dirSector name size).2.freeMapDisk = st.freeMapDisk ∧
      (createFile st dirSector name size).2.dirs = st.dirs ∧
      (createFile st dirSector name size).2.headers = st.headers ∧
      (createFile st dirSector name size).2.openFiles = st.openFiles) ∧
    ((createFile st dirSector name size).1 = true →
      (createFile st dirSector name size).2.freeMapDisk =
        (createFile st dirSector name size).2.freeMap ∧
      (createFile st dirSector name size).2.freeMap =
        (extend newFileHeader (bmFind st.freeMap).2 size).2.2 ∧
      (createFile st dirSector name size).2.headers =
        updMap st.headers (toUnsigned (bmFind st.freeMap).1)
          (extend newFileHeader (bmFind st.freeMap).2 size).2.1 ∧
      (createFile st dirSector name size).2.dirs =
        updMap st.dirs dirSector
          (dirAdd (st.dirs dirSector) name (toUnsigned (bmFind st.freeMap).1) false).2) := by
  simp only [createFile]
  split_ifs with h1 h2 h3 h4 <;>
    simp_all [dirAdd_fst]

/-- Claim C2 witness: a concrete colliding create rolls back to the
persisted free map. -/
theorem c2_createFile_failure_rollback_witness :
    ((dirHasEntry (stC5.dirs 1) "d" = true ∨
      (bmFind stC5.freeMap).1 = -1 ∨
      (extend newFileHeader (bmFind stC5.freeMap).2 0).1 = false) →
      (createFile stC5 1 "d" 0).1 = false) ∧
    ((createFile stC5 1 "d" 0).1 = false →
      (createFile stC5 1 "d" 0).2.freeMap = stC5.freeMapDisk ∧
      (createFile stC5 1 "d" 0).2.freeMapDisk = stC5.freeMapDisk ∧
      (createFile stC5 1 "d" 0).2.dirs = stC5.dirs ∧
      (createFile stC5 1 "d" 0).2.headers = stC5.headers ∧
      (createFile stC5 1 "d" 0).2.openFiles = stC5.openFiles) ∧
    ((createFile stC5 1 "d" 0).1 = true →
      (createFile stC5 1 "d" 0).2.freeMapDisk = (createFile stC5 1 "d" 0).2.freeMap ∧
      (createFile stC5 1 "d" 0).2.freeMap = (extend newFileHeader (bmFind stC5.freeMap).2 0).2.2 ∧
      (createFile stC5 1 "d" 0).2.headers =
        updMap stC5.headers (toUnsigned (bmFind stC5.freeMap).1)
          (extend newFileHeader (bmFind stC5.freeMap).2 0).2.1 ∧
      (createFile stC5 1 "d" 0).2.dirs =
        updMap stC5.dirs 1 (dirAdd (stC5.dirs 1) "d" (toUnsigned (bmFind stC5.freeMap).1) false).2) :=
  c2_createFile_failure_rollback stC5 1 "d" 0

/-- Claim C5 counterexample: `RemoveDirectory` on an empty directory whose
open-file cache entry has reference count 1 still returns true, clears the
directory's header sector from the free map at once, and removes the parent
row — no deferred-deletion marking happens, and the open-file entry is left
behind untouched. -/
theorem c5_counterexample :
    (fmLookup stC5.openFiles 5).map (fun i => i.referenceCount) = some 1 ∧
    (removeDirectory stC5 1 "d").map
      (fun r => (r.1, bmTest r.2.freeMap 5, dirFindEntryBySector (r.2.dirs 1) 5 true,
        (fmLookup r.2.openFiles 5).map (fun i => i.referenceCount))) =
      some (true, false, none, some 1) := by
  constructor <;> rfl

/-- Claim C5 (amended): `RemoveDirectory(path)` on an existing, empty target
directory always performs the immediate free-and-clear sequence —
deallocate the directory's sectors, clear its header sector, flush the free
map, and remove its parent row — regardless of the directory's open-file
reference count; the open-file cache is never consulted and survives
unchanged. -/
theorem c5_amended_removeDirectory_immediate (st : FMState) (dirSector : Nat)
    (name : String) (sector : Nat) (fm1 : Bitmap)
    (hfind : dirFindDirectory (st.dirs dirSector) name = some sector)
    (hempty : dirIsEmpty (st.dirs sector) = true)
    (hde : deallocate (st.headers sector) st.freeMap = some fm1) :
    removeDirectory st dirSector name =
      some (true,
        { st with
            freeMap := bmClear fm1 sector, freeMapDisk := bmClear fm1 sector,
            dirs := updMap st.dirs dirSector (dirRemove (st.dirs dirSector) name).2 }) ∧
    (removeDirectory st dirSector name).map (fun r => r.2.openFiles) = some st.openFiles := by
  simp only [removeDirectory]
  rw [hfind]
  simp [hempty, hde]

/-- Claim C5 witness: the amended statement evaluated on the concrete open
directory. -/
theorem c5_amended_removeDirectory_immediate_witness :
    removeDirectory stC5 1 "d" =
      some (true,
        { stC5 with
            freeMap := bmClear stC5.freeMap 5, freeMapDisk := bmClear stC5.freeMap 5,
            dirs := updMap stC5.dirs 1 (dirRemove (stC5.dirs 1) "d").2 }) ∧
    (removeDirectory stC5 1 "d").map (fun r => r.2.openFiles) = some stC5.openFiles :=
  c5_amended_removeDirectory_immediate stC5 1 "d" 5 stC5.freeMap rfl rfl rfl

/-- Setting one list element moves one unit of phase count from the old
value to the new one. -/
theorem countPhase_set (x a old : RWPhase) (l : List RWPhase) (i : Nat)
    (h : l[i]? = some old) :
    countPhase x (l.set i a) + (if old = x then 1 else 0) =
      countPhase x l + (if a = x then 1 else 0) := by
  induction l generalizing i with
  | nil => simp at h
  | cons p rest ih =>
    cases i with
    | zero =>
      simp only [List.getElem?_cons_zero, Option.some.injEq] at h
      subst h
      simp only [List.set_cons_zero, countPhase]
      split_ifs <;> omega
    | succ n =>
      simp only [List.getElem?_cons_succ] at h
      have hr := ih n h
      simp only [List.set_cons_succ, countPhase]
      omega

/-- An occupied slot contributes to the phase count. -/
theorem countPhase_pos (x : RWPhase) (l : List RWPhase) (i : Nat)
    (h : l[i]? = some x) : 0 < countPhase x l := by
  induction l generalizing i with
  | nil => simp at h
  | cons p rest ih =>
    cases i with
    | zero =>
      simp only [List.getElem?_cons_zero, Option.some.injEq] at h
      subst h
      simp [countPhase]
    | succ n =>
      simp only [List.getElem?_cons_succ] at h
      have := ih n h
      simp only [countPhase]
      omega

/-- The all-idle initial state satisfies the RW-lock invariant. -/
theorem rwInv_init (n : Nat) : rwInv (rwInit n) := by
  have hc : ∀ m, countPhase .reading (List.replicate m .idle) = 0 := by
    intro m
    induction m with
    | zero => rfl
    | succ k ih => simpa [List.replicate, countPhase] using ih
  refine ⟨(hc n).symm, ?_, fun h => absurd rfl h⟩
  intro i
  simp only [rwInit, List.getElem?_replicate]
  split_ifs <;> simp

/-- Every interleaving step of the RW-lock protocol preserves the
invariant. -/
theorem rwInv_step (s s' : RWSys) (hs : rwInv s) (st : RWSysStep s s') : rwInv s' := by
  obtain ⟨h1, h2, h3⟩ := hs
  cases st with
  | startRead i h =>
    have hc := countPhase_set .reading .wantRead .idle s.phases i h
    simp at hc
    refine ⟨?_, ?_, ?_⟩
    · dsimp only
      omega
    · intro j
      dsimp only
      rcases eq_or_ne i j with rfl | hij
      · have hlt : i < s.phases.length := (List.getElem?_eq_some_iff.mp h).1
        rw [List.getElem?_set_self hlt]
        constructor
        · intro hcontra; simp at hcontra
        · intro hw
          have h5 := (h2 i).mpr hw
          rw [h] at h5
          simp at h5
      · rw [List.getElem?_set_ne hij]
        exact h2 j
    · intro hw
      dsimp only at hw ⊢
      have := h3 hw
      omega
  | enterRead i h hw ha =>
    have hc := countPhase_set .reading .reading .wantRead s.phases i h
    simp at hc
    refine ⟨?_, ?_, ?_⟩
    · dsimp only
      omega
    · intro j
      dsimp only
      rcases eq_or_ne i j with rfl | hij
      · have hlt : i < s.phases.length := (List.getElem?_eq_some_iff.mp h).1
        rw [List.getElem?_set_self hlt]
        simp [ha]
      · rw [List.getElem?_set_ne hij]
        rw [ha] at h2 ⊢
        simpa using (h2 j).mp
    · intro hcontra
      dsimp only at hcontra
      exact absurd ha hcontra
  | exitRead i h ha hr =>
    have hc := countPhase_set .reading .idle .reading s.phases i h
    simp at hc
    refine ⟨?_, ?_, ?_⟩
    · dsimp only
      omega
    · intro j
      dsimp only
      rcases eq_or_ne i j with rfl | hij
      · have hlt : i < s.phases.length := (List.getElem?_eq_some_iff.mp h).1
        rw [List.getElem?_set_self hlt]
        simp [ha]
      · rw [List.getElem?_set_ne hij]
        rw [ha] at h2 ⊢
        simpa using (h2 j).mp
    · intro hcontra
      dsimp only at hcontra
      exact absurd ha hcontra
  | startWrite i h =>
    have hc := countPhase_set .reading .wantWrite .idle s.phases i h
    simp at hc
    refine ⟨?_, ?_, ?_⟩
    · dsimp only
      omega
    · intro j
      dsimp only
      rcases eq_or_ne i j with rfl | hij
      · have hlt : i < s.phases.length := (List.getElem?_eq_some_iff.mp h).1
        rw [List.getElem?_set_self hlt]
        constructor
        · intro hcontra; simp at hcontra
        · intro hw
          have h5 := (h2 i).mpr hw
          rw [h] at h5
          simp at h5
      · rw [List.getElem?_set_ne hij]
        exact h2 j
    · intro hw
      dsimp only at hw ⊢
      have := h3 hw
      omega
  | enterWrite i h hr ha =>
    have hc := countPhase_set .reading .writing .wantWrite s.phases i h
    simp at hc
    refine ⟨?_, ?_, ?_⟩
    · dsimp only
      omega
    · intro j
      dsimp only
      rcases eq_or_ne i j with rfl | hij
      · have hlt : i < s.phases.length := (List.getElem?_eq_some_iff.mp h).1
        rw [List.getElem?_set_self hlt]
        simp
      · rw [List.getElem?_set_ne hij]
        constructor
        · intro hjw
          have h5 := (h2 j).mp hjw
          rw [ha] at h5
          simp at h5
        · intro hji
          simp only [Option.some.injEq] at hji
          omega
    · intro _
      dsimp only
      omega
  | exitWrite i h ha hr =>
    have hc := countPhase_set .reading .idle .writing s.phases i h
    simp at hc
    refine ⟨?_, ?_, ?_⟩
    · dsimp only
      omega
    · intro j
      dsimp only
      rcases eq_or_ne i j with rfl | hij
      · have hlt : i < s.phases.length := (List.getElem?_eq_some_iff.mp h).1
        rw [List.getElem?_set_self hlt]
        simp
      · rw [List.getElem?_set_ne hij]
        constructor
        · intro hjw
          have h5 := (h2 j).mp hjw
          rw [ha] at h5
          simp at h5
          omega
        · intro hcontra; simp at hcontra
    · intro hcontra
      exact absurd rfl hcontra

/-- Reachable states of the RW-lock protocol satisfy the invariant. -/
theorem rwInv_reachable (n : Nat) (s : RWSys) (h : rwReachable n s) : rwInv s := by
  induction h with
  | refl => exact rwInv_init n
  | tail _ hstep ih => exact rwInv_step _ _ ih hstep

/-- Claim C8: under every interleaving of threads operating on the same
file's `SynchOpenFile` handles, at most one thread is inside `WriteAt`'s
underlying write at a time, and no thread is inside `WriteAt` while another
is inside `ReadAt` — the exclusion enforced by the per-file writer-priority
RW-lock. -/
theorem c8_writer_exclusion (n : Nat) (s : RWSys) (hreach : rwReachable n s) :
    (∀ i j : Nat, s.phases[i]? = some .writing → s.phases[j]? = some .writing → i = j) ∧
    (∀ i j : Nat, s.phases[i]? = some .writing → s.phases[j]? = some .reading → False) := by
  obtain ⟨h1, h2, h3⟩ := rwInv_reachable n s hreach
  constructor
  · intro i j hi hj
    have hik := (h2 i).mp hi
    have hjk := (h2 j).mp hj
    rw [hik] at hjk
    simpa using hjk
  · intro i j hi hj
    have hik := (h2 i).mp hi
    have hzero := h3 (by rw [hik]; simp)
    have hpos := countPhase_pos .reading s.phases j hj
    omega

/-- Claim C8 witness: the exclusion applied to the concrete reachable state
in which thread 0 holds the write side. -/
theorem c8_writer_exclusion_witness :
    rwReachable 1 sWriting ∧ (0 : Nat) = 0 :=
  ⟨Relation.ReflTransGen.head (RWSysStep.startWrite (rwInit 1) 0 (by decide))
      (Relation.ReflTransGen.head (RWSysStep.enterWrite _ 0 (by decide) (by decide) (by decide))
        Relation.ReflTransGen.refl),
    (c8_writer_exclusion 1 sWriting
      (Relation.ReflTransGen.head (RWSysStep.startWrite (rwInit 1) 0 (by decide))
        (Relation.ReflTransGen.head (RWSysStep.enterWrite _ 0 (by decide) (by decide) (by decide))
          Relation.ReflTransGen.refl))).1 0 0 (by decide) (by decide)⟩

/-- Clearing a bit makes its test false. -/
theorem bmTest_clear_self (fm : Bitmap) (i : Nat) : bmTest (bmClear fm i) i = false := by
  unfold bmTest bmClear
  rcases Nat.lt_or_ge i (List.length fm) with hlt | hge
  · rw [List.getD_eq_getElem?_getD, List.getElem?_set_self (by simpa using hlt)]
    rfl
  · rw [List.set_eq_of_length_le (by simpa using hge), List.getD_eq_getElem?_getD,
      List.getElem?_eq_none (by simpa using hge)]
    rfl

/-- Clearing a bit leaves the others alone. -/
theorem bmTest_clear_ne (fm : Bitmap) (i j : Nat) (h : i ≠ j) :
    bmTest (bmClear fm i) j = bmTest fm j := by
  unfold bmTest bmClear
  rw [List.getD_eq_getElem?_getD, List.getElem?_set_ne h, ← List.getD_eq_getElem?_getD]

/-- `Deallocate`'s clearing loop succeeds on pairwise-distinct marked
sectors, clears exactly them, and leaves every other bit alone. -/
theorem clearAll_spec (l : List Nat) (fm : Bitmap) (hnd : l.Nodup)
    (hmk : ∀ x ∈ l, bmTest fm x = true) :
    ∃ fm2, clearAll fm l = some fm2 ∧
      (∀ x ∈ l, bmTest fm2 x = false) ∧
      (∀ y, y ∉ l → bmTest fm2 y = bmTest fm y) := by
  induction l generalizing fm with
  | nil => exact ⟨fm, rfl, by simp, fun y _ => rfl⟩
  | cons a rest ih =>
    have ha : bmTest fm a = true := hmk a (List.mem_cons_self a rest)
    have hnr : a ∉ rest := (List.nodup_cons.mp hnd).1
    obtain ⟨fm2, hcl, hfalse, hframe⟩ := ih (bmClear fm a) (List.nodup_cons.mp hnd).2
      (fun x hx => by
        rw [bmTest_clear_ne fm a x (fun hax => hnr (hax ▸ hx))]
        exact hmk x (List.mem_cons_of_mem a hx))
    refine ⟨fm2, ?_, ?_, ?_⟩
    · simpa [clearAll, ha] using hcl
    · intro x hx
      rcases List.mem_cons.mp hx with rfl | hx2
      · rw [hframe x hnr, bmTest_clear_self]
      · exact hfalse x hx2
    · intro y hy
      rw [hframe y (fun hyr => hy (List.mem_cons_of_mem a hyr)),
        bmTest_clear_ne fm a y (fun hay => hy (hay ▸ List.mem_cons_self a rest))]

/-- Updating a sector-indexed store reads back the new value. -/
theorem updMap_self {α : Type} (f : Nat → α) (i : Nat) (v : α) : updMap f i v i = v := by
  simp [updMap]

/-- Erasing a cache key makes its lookup fail. -/
theorem fmLookup_fmErase_self (ofs : List (Nat × OpenInfo)) (sector : Nat) :
    fmLookup (fmErase ofs sector) sector = none := by
  unfold fmLookup fmErase
  have hfn : List.find? (fun p => p.1 == sector) (ofs.filter (fun p => p.1 ≠ sector)) = none := by
    rw [List.find?_eq_none]
    intro p hp
    have h2 := (List.mem_filter.mp hp).2
    simp_all
  rw [hfn]
  rfl

/-- Marking an open file's directory row for deletion: under the
no-duplicate-names invariant (I5) and uniqueness of the header sector among
in-use rows, `MarkForDeletion` succeeds, name lookup subsequently fails,
the row reads back as marked by sector, and `RemoveMarkedForDeletion`
clears exactly that row. -/
theorem dirMark_bundle (dir : List DirEntry) (name : String) (e : DirEntry)
    (hfind : dirFindEntry dir name false = some e)
    (hsec : ∀ x ∈ dir, x.inUse = true → x.sector = e.sector →
      x.markedForDeletion = false ∧ x.name = name)
    (hname1 : dir.countP (fun x => entryValid x false && x.name == name) ≤ 1)
    (hsec1 : dir.countP (fun x => x.inUse && x.sector == e.sector) ≤ 1) :
    ∃ dir2, dirMarkForDeletion dir e.sector = some dir2 ∧
      dirFindEntry dir2 name false = none ∧
      dirIsMarkedForDeletion dir2 e.sector = some true ∧
      ∃ dir3, dirRemoveMarkedForDeletion dir2 e.sector = some dir3 ∧
        dirFindEntryBySector dir3 e.sector true = none := by
  induction dir with
  | nil => simp [dirFindEntry] at hfind
  | cons x rest ih =>
    by_cases hxhit : (entryValid x false && x.sector == e.sector) = true
    · obtain ⟨hxv, hxsec⟩ : entryValid x false = true ∧ x.sector = e.sector := by
        simpa using hxhit
      obtain ⟨hxuse, hxunmk⟩ : x.inUse = true ∧ x.markedForDeletion = false := by
        simpa [entryValid] using hxv
      have hxname : x.name = name :=
        (hsec x (List.mem_cons_self x rest) hxuse hxsec).2
      have hpvis_x : (entryValid x false && x.name == name) = true := by
        simp [hxv, hxname]
      have hrest_vis : rest.countP (fun y => entryValid y false && y.name == name) = 0 := by
        rw [List.countP_cons] at hname1
        simp only [hpvis_x, if_pos] at hname1
        omega
      have hpsec_x : (x.inUse && x.sector == e.sector) = true := by
        simp [hxuse, hxsec]
      have hrest_sec : rest.countP (fun y => y.inUse && y.sector == e.sector) = 0 := by
        rw [List.countP_cons] at hsec1
        simp only [hpsec_x, if_pos] at hsec1
        omega
      refine ⟨{ x with markedForDeletion := true } :: rest, ?_, ?_, ?_,
        ⟨{ x with markedForDeletion := true, inUse := false } :: rest, ?_, ?_⟩⟩
      · simp [dirMarkForDeletion, hxhit]
      · unfold dirFindEntry
        have hhead : (entryValid { x with markedForDeletion := true } false &&
            ({ x with markedForDeletion := true } : DirEntry).name == name) = false := by
          simp [entryValid]
        simp only [List.find?_cons, hhead]
        rw [List.find?_eq_none]
        intro y hy
        have hy0 := List.countP_eq_zero.mp hrest_vis y hy
        simpa using hy0
      · unfold dirIsMarkedForDeletion dirFindEntryBySector
        simp [List.find?_cons, entryValid, hxuse, hxsec]
      · simp [dirRemoveMarkedForDeletion, entryValid, hxuse, hxsec]
      · unfold dirFindEntryBySector
        have hhead : (entryValid { x with markedForDeletion := true, inUse := false } true &&
            ({ x with markedForDeletion := true, inUse := false } : DirEntry).sector ==
              e.sector) = false := by
          simp [entryValid]
        simp only [List.find?_cons, hhead]
        rw [List.find?_eq_none]
        intro y hy
        have hy0 := List.countP_eq_zero.mp hrest_sec y hy
        simpa [entryValid] using hy0
    · have hxsec_neg : ¬(x.inUse = true ∧ x.sector = e.sector) := by
        rintro ⟨hu, hs⟩
        have hx2 := hsec x (List.mem_cons_self x rest) hu hs
        exact hxhit (by simp [entryValid, hu, hx2.1, hs])
      have hxvisF : (entryValid x false && x.name == name) = false := by
        rcases hvb : (entryValid x false && x.name == name) with _ | _
        · rfl
        · exfalso
          have hx : dirFindEntry (x :: rest) name false = some x := by
            unfold dirFindEntry
            simp only [List.find?_cons, hvb]
          rw [hfind] at hx
          have hex : e = x := Option.some.inj hx
          subst hex
          obtain ⟨hv2, _⟩ : entryValid e false = true ∧ (e.name == name) = true := by
            simpa using hvb
          obtain ⟨hu2, _⟩ : e.inUse = true ∧ e.markedForDeletion = false := by
            simpa [entryValid] using hv2
          exact hxsec_neg ⟨hu2, rfl⟩
      have hxsecF : (x.inUse && x.sector == e.sector) = false := by
        rcases hsb : (x.inUse && x.sector == e.sector) with _ | _
        · rfl
        · exfalso
          obtain ⟨hu, hs⟩ : x.inUse = true ∧ x.sector = e.sector := by simpa using hsb
          exact hxsec_neg ⟨hu, hs⟩
      have hxhitF : (entryValid x false && x.sector == e.sector) = false := by
        rcases hhb : (entryValid x false && x.sector == e.sector) with _ | _
        · rfl
        · exact absurd hhb hxhit
      have hfind_rest : dirFindEntry rest name false = some e := by
        unfold dirFindEntry at hfind ⊢
        simpa only [List.find?_cons, hxvisF] using hfind
      have hsec_rest : ∀ y ∈ rest, y.inUse = true → y.sector = e.sector →
          y.markedForDeletion = false ∧ y.name = name :=
        fun y hy => hsec y (List.mem_cons_of_mem x hy)
      have hname1_rest : rest.countP (fun y => entryValid y false && y.name == name) ≤ 1 := by
        rw [List.countP_cons] at hname1
        omega
      have hsec1_rest : rest.countP (fun y => y.inUse && y.sector == e.sector) ≤ 1 := by
        rw [List.countP_cons] at hsec1
        omega
      obtain ⟨dir2, h1, h2, h3, dir3, h4, h5⟩ :=
        ih hfind_rest hsec_rest hname1_rest hsec1_rest
      have hheadTrue : (entryValid x true && x.sector == e.sector) = false := by
        have : entryValid x true = x.inUse := by simp [entryValid]
        rw [this]
        exact hxsecF
      refine ⟨x :: dir2, ?_, ?_, ?_, ⟨x :: dir3, ?_, ?_⟩⟩
      · simp [dirMarkForDeletion, hxhitF, h1]
      · unfold dirFindEntry at h2 ⊢
        simp only [List.find?_cons, hxvisF]
        exact h2
      · unfold dirIsMarkedForDeletion dirFindEntryBySector at h3 ⊢
        simp only [List.find?_cons, hheadTrue]
        exact h3
      · simp only [dirRemoveMarkedForDeletion, hheadTrue, Bool.false_eq_true, if_false, h4]
        rfl
      · unfold dirFindEntryBySector at h5 ⊢
        simp only [List.find?_cons, hheadTrue]
        exact h5

/-- Claim C1: removing a file whose open-file cache entry exists
(`referenceCount >= 1`) marks its directory row for deletion instead of
freeing sectors: the free map (in memory and on disk), the headers and the
open-file cache are untouched, name lookup subsequently fails so `Open`
returns the null handle, previously marked sectors stay marked, and the
sectors are freed and the row cleared exactly at the `Close` that takes the
reference count to zero — a non-final `Close` only decrements. -/
theorem c1_deferred_deletion
    (st : FMState) (name : String) (dirSector : Nat) (e : DirEntry) (info : OpenInfo)
    (hfind : dirFindEntry (st.dirs dirSector) name false = some e)
    (hinfo : fmLookup st.openFiles e.sector = some info)
    (hrc : 1 ≤ info.referenceCount)
    (hds : info.directorySector = dirSector)
    (hsec : ∀ x ∈ st.dirs dirSector, x.inUse = true → x.sector = e.sector →
      x.markedForDeletion = false ∧ x.name = name)
    (hname1 : (st.dirs dirSector).countP (fun x => entryValid x false && x.name == name) ≤ 1)
    (hsec1 : (st.dirs dirSector).countP (fun x => x.inUse && x.sector == e.sector) ≤ 1)
    (hmk : ∀ x ∈ deallocList info.cachedHeader, bmTest st.freeMap x = true)
    (hnd : (deallocList info.cachedHeader).Nodup) :
    ∃ dir2, dirMarkForDeletion (st.dirs dirSector) e.sector = some dir2 ∧
      fmRemove st name dirSector =
        some (true, { st with dirs := updMap st.dirs dirSector dir2 }) ∧
      dirFindEntry dir2 name false = none ∧
      fmOpen { st with dirs := updMap st.dirs dirSector dir2 } name dirSector =
        some (none, { st with dirs := updMap st.dirs dirSector dir2 }) ∧
      (∀ x ∈ deallocList info.cachedHeader,
        bmTest ({ st with dirs := updMap st.dirs dirSector dir2 } : FMState).freeMap x = true) ∧
      (2 ≤ info.referenceCount →
        fmClose { st with dirs := updMap st.dirs dirSector dir2 } e.sector =
          some { st with
            dirs := updMap st.dirs dirSector dir2,
            openFiles := fmSet st.openFiles e.sector
              { info with referenceCount := info.referenceCount - 1 } }) ∧
      (info.referenceCount = 1 →
        ∃ st3, fmClose { st with dirs := updMap st.dirs dirSector dir2 } e.sector = some st3 ∧
          bmTest st3.freeMap e.sector = false ∧
          (∀ x ∈ deallocList info.cachedHeader, bmTest st3.freeMap x = false) ∧
          st3.freeMapDisk = st3.freeMap ∧
          dirFindEntryBySector (st3.dirs dirSector) e.sector true = none ∧
          fmLookup st3.openFiles e.sector = none) := by
  obtain ⟨dir2, hmark, hfind2, hmkd2, dir3, hrem3, hbys3⟩ :=
    dirMark_bundle (st.dirs dirSector) name e hfind hsec hname1 hsec1
  have hman : fmIsManaged st e.sector = true := by
    simp [fmIsManaged, hinfo]
  have hdupd : updMap st.dirs dirSector dir2 dirSector = dir2 :=
    updMap_self st.dirs dirSector dir2
  refine ⟨dir2, hmark, ?_, hfind2, ?_, ?_, ?_, ?_⟩
  · simp only [fmRemove]
    rw [hfind]
    simp only [hman, if_true, hinfo]
    rw [if_pos ⟨by omega, hds⟩, hmark]
    rfl
  · simp only [fmOpen, hdupd]
    rw [hfind2]
  · intro x hx
    exact hmk x hx
  · intro hrc2
    simp only [fmClose, hinfo]
    rw [if_neg (by omega)]
  · intro hrc1
    obtain ⟨fm1, hcl, hfm1false, hfm1frame⟩ :=
      clearAll_spec (deallocList info.cachedHeader) st.freeMap hnd hmk
    refine ⟨{ st with
        freeMap := bmClear fm1 e.sector, freeMapDisk := bmClear fm1 e.sector,
        dirs := updMap (updMap st.dirs dirSector dir2) info.directorySector dir3,
        openFiles := fmErase st.openFiles e.sector }, ?_, ?_, ?_, rfl, ?_, ?_⟩
    · simp only [fmClose, hinfo]
      rw [if_pos (by omega)]
      rw [hds, hdupd, hmkd2]
      simp only [Option.some_bind, if_true, deallocate]
      rw [hcl]
      simp only [Option.some_bind, hrem3, Option.map_some']
    · exact bmTest_clear_self fm1 e.sector
    · intro x hx
      rcases eq_or_ne x e.sector with rfl | hxe
      · exact bmTest_clear_self fm1 e.sector
      · rw [bmTest_clear_ne fm1 e.sector x (Ne.symm hxe)]
        exact hfm1false x hx
    · dsimp only
      rw [show (updMap (updMap st.dirs dirSector dir2) info.directorySector dir3) dirSector =
          dir3 from by rw [hds]; exact updMap_self _ _ _]
      exact hbys3
    · exact fmLookup_fmErase_self st.openFiles e.sector

/-- Claim C1 witness: deferred deletion evaluated on a concrete open file
(`f`, header sector 5, data sector 6, reference count 1). -/
theorem c1_deferred_deletion_witness :
    ∃ dir2, dirMarkForDeletion (stC1.dirs 1) entryC1.sector = some dir2 ∧
      fmRemove stC1 "f" 1 = some (true, { stC1 with dirs := updMap stC1.dirs 1 dir2 }) ∧
      dirFindEntry dir2 "f" false = none ∧
      fmOpen { stC1 with dirs := updMap stC1.dirs 1 dir2 } "f" 1 =
        some (none, { stC1 with dirs := updMap stC1.dirs 1 dir2 }) ∧
      (∀ x ∈ deallocList infoC1.cachedHeader,
        bmTest ({ stC1 with dirs := updMap stC1.dirs 1 dir2 } : FMState).freeMap x = true) ∧
      (2 ≤ infoC1.referenceCount →
        fmClose { stC1 with dirs := updMap stC1.dirs 1 dir2 } entryC1.sector =
          some { stC1 with
            dirs := updMap stC1.dirs 1 dir2,
            openFiles := fmSet stC1.openFiles entryC1.sector
              { infoC1 with referenceCount := infoC1.referenceCount - 1 } }) ∧
      (infoC1.referenceCount = 1 →
        ∃ st3, fmClose { stC1 with dirs := updMap stC1.dirs 1 dir2 } entryC1.sector =
            some st3 ∧
          bmTest st3.freeMap entryC1.sector = false ∧
          (∀ x ∈ deallocList infoC1.cachedHeader, bmTest st3.freeMap x = false) ∧
          st3.freeMapDisk = st3.freeMap ∧
          dirFindEntryBySector (st3.dirs 1) entryC1.sector true = none ∧
          fmLookup st3.openFiles entryC1.sector = none) :=
  c1_deferred_deletion stC1 "f" 1 entryC1 infoC1 rfl rfl (by decide) rfl (by decide)
    (by decide) (by decide) (by decide) (by decide)

/-- Marking a bit makes its test true (within the bitmap). -/
theorem bmTest_mark_self (fm : Bitmap) (i : Nat) (h : i < List.length fm) :
    bmTest (bmMark fm i) i = true := by
  unfold bmTest bmMark
  rw [List.getD_eq_getElem?_getD, List.getElem?_set_self h]
  rfl

/-- Marking a bit leaves the others alone. -/
theorem bmTest_mark_ne (fm : Bitmap) (i j : Nat) (h : i ≠ j) :
    bmTest (bmMark fm i) j = bmTest fm j := by
  unfold bmTest bmMark
  rw [List.getD_eq_getElem?_getD, List.getElem?_set_ne h, ← List.getD_eq_getElem?_getD]

/-- `Bitmap::Find` that fails leaves the bitmap unchanged. -/
theorem bmFind_fail (fm : Bitmap) (h : (bmFind fm).1 = -1) : (bmFind fm).2 = fm := by
  unfold bmFind at h ⊢
  cases hfc : bmFirstClear fm with
  | none => rfl
  | some n => rw [hfc] at h; simp at h

/-- `Bitmap::Find` that succeeds returns the first clear bit, which is in
range and clear, and marks it. -/
theorem bmFind_succ (fm : Bitmap) (h : (bmFind fm).1 ≠ -1) :
    ∃ n, bmFirstClear fm = some n ∧ (bmFind fm).1 = (n : Int) ∧
      (bmFind fm).2 = bmMark fm n ∧ n < List.length fm ∧ bmTest fm n = false := by
  cases hfc : bmFirstClear fm with
  | none => unfold bmFind at h; rw [hfc] at h; simp at h
  | some n =>
    obtain ⟨hlt, hval, -⟩ := List.findIdx?_eq_some_iff_getElem.mp hfc
    refine ⟨n, rfl, ?_, ?_, hlt, ?_⟩
    · unfold bmFind; rw [hfc]
    · unfold bmFind; rw [hfc]
    · unfold bmTest
      rw [List.getD_eq_getElem?_getD, List.getElem?_eq_getElem hlt]
      simpa using hval

/-- `toUnsigned` is the identity on small naturals. -/
theorem toUnsigned_coe (n : Nat) (h : n < 2 ^ 32) : toUnsigned (n : Int) = n := by
  unfold toUnsigned
  omega

/-- A successful pid lookup yields a member of the space list. -/
theorem lookupSpace_mem (sp : List (Nat × List TranslationEntry)) (sid : Nat)
    (pt : List TranslationEntry) (h : lookupSpace sp sid = some pt) : (sid, pt) ∈ sp := by
  unfold lookupSpace at h
  obtain ⟨q, hq1, hq2⟩ := Option.map_eq_some'.mp h
  have hmem := List.mem_of_find?_eq_some hq1
  have hkey : q.1 = sid := by simpa using List.find?_some hq1
  have : q = (sid, pt) := by
    obtain ⟨a, b⟩ := q
    simp_all
  rwa [this] at hmem

/-- A failed pid lookup means the pid is not among the keys. -/
theorem lookupSpace_eq_none (sp : List (Nat × List TranslationEntry)) (sid : Nat) :
    lookupSpace sp sid = none ↔ sid ∉ sp.map Prod.fst := by
  unfold lookupSpace
  simp only [Option.map_eq_none', List.find?_eq_none, List.mem_map]
  constructor
  · rintro h ⟨q, hq, rfl⟩
    exact h q hq (by simp)
  · intro h q hq hbeq
    exact h ⟨q, hq, by simpa using hbeq⟩

/-- With no duplicate pids, membership determines the lookup. -/
theorem lookupSpace_of_mem_nodup (sp : List (Nat × List TranslationEntry))
    (hnd : (sp.map Prod.fst).Nodup) (q : Nat × List TranslationEntry) (hq : q ∈ sp) :
    lookupSpace sp q.1 = some q.2 := by
  induction sp with
  | nil => simp at hq
  | cons p rest ih =>
    rcases List.mem_cons.mp hq with rfl | hq2
    · unfold lookupSpace
      rw [List.find?_cons_of_pos _ (by simp)]
      rfl
    · have hne : p.1 ≠ q.1 := by
        intro he
        have : q.1 ∈ rest.map Prod.fst := List.mem_map.mpr ⟨q, hq2, rfl⟩
        rw [List.map_cons, List.nodup_cons] at hnd
        exact hnd.1 (he ▸ this)
      unfold lookupSpace
      rw [List.find?_cons_of_neg _ (by simpa using hne)]
      exact ih (by rw [List.map_cons, List.nodup_cons] at hnd; exact hnd.2) hq2

/-- Replacing a pid's table keeps the key list. -/
theorem map_fst_setSpace (sp : List (Nat × List TranslationEntry)) (sid : Nat)
    (pt : List TranslationEntry) :
    (setSpace sp sid pt).map Prod.fst = sp.map Prod.fst := by
  induction sp with
  | nil => rfl
  | cons p rest ih =>
    unfold setSpace
    split_ifs with h
    · simp [h]
    · simp [ih]

/-- With no duplicate pids and the pid present, the members after a table
replacement are the new entry plus the members with other keys. -/
theorem mem_setSpace_iff (sp : List (Nat × List TranslationEntry)) (sid : Nat)
    (pt pt0 : List TranslationEntry) (hnd : (sp.map Prod.fst).Nodup)
    (hlk : lookupSpace sp sid = some pt0) (q : Nat × List TranslationEntry) :
    q ∈ setSpace sp sid pt ↔ q = (sid, pt) ∨ (q ∈ sp ∧ q.1 ≠ sid) := by
  induction sp with
  | nil => simp [lookupSpace] at hlk
  | cons p rest ih =>
    rw [List.map_cons, List.nodup_cons] at hnd
    by_cases hp : p.1 = sid
    · unfold setSpace
      rw [if_pos hp]
      simp only [List.mem_cons]
      constructor
      · rintro (rfl | hq)
        · exact Or.inl rfl
        · refine Or.inr ⟨Or.inr hq, ?_⟩
          intro hqs
          exact hnd.1 (hp ▸ hqs ▸ List.mem_map.mpr ⟨q, hq, rfl⟩)
      · rintro (rfl | ⟨(rfl | hq), hne⟩)
        · exact Or.inl rfl
        · exact absurd hp hne
        · exact Or.inr hq
    · have hlk2 : lookupSpace rest sid = some pt0 := by
        unfold lookupSpace at hlk ⊢
        rwa [List.find?_cons_of_neg _ (by simpa using hp)] at hlk
      unfold setSpace
      rw [if_neg hp]
      simp only [List.mem_cons]
      rw [ih hnd.2 hlk2]
      constructor
      · rintro (rfl | (rfl | ⟨hq, hne⟩))
        · refine Or.inr ⟨Or.inl rfl, hp⟩
        · exact Or.inl rfl
        · exact Or.inr ⟨Or.inr hq, hne⟩
      · rintro (rfl | ⟨(rfl | hq), hne⟩)
        · exact Or.inr (Or.inl rfl)
        · exact Or.inl rfl
        · exact Or.inr (Or.inr ⟨hq, hne⟩)

/-- Updating one key of a map leaves the others alone. -/
theorem updMap_ne {α : Type} (f : Nat → α) (i : Nat) (v : α) (j : Nat) (h : j ≠ i) :
    updMap f i v j = f j := by
  simp [updMap, h]

/-- Replacing a present pid's table makes its lookup return the new table. -/
theorem lookupSpace_setSpace_self (sp : List (Nat × List TranslationEntry)) (sid : Nat)
    (pt pt0 : List TranslationEntry) (hlk : lookupSpace sp sid = some pt0) :
    lookupSpace (setSpace sp sid pt) sid = some pt := by
  induction sp with
  | nil => simp [lookupSpace] at hlk
  | cons p rest ih =>
    by_cases hp : p.1 = sid
    · unfold setSpace
      rw [if_pos hp]
      unfold lookupSpace
      rw [List.find?_cons_of_pos _ (by simp)]
      rfl
    · have hlk2 : lookupSpace rest sid = some pt0 := by
        unfold lookupSpace at hlk ⊢
        rwa [List.find?_cons_of_neg _ (by simpa using hp)] at hlk
      unfold setSpace
      rw [if_neg hp]
      unfold lookupSpace at ih ⊢
      rw [List.find?_cons_of_neg _ (by simpa using hp)]
      exact ih hlk2

/-- Replacing one pid's table leaves the other lookups alone. -/
theorem lookupSpace_setSpace_ne (sp : List (Nat × List TranslationEntry)) (sid sid2 : Nat)
    (pt : List TranslationEntry) (h : sid2 ≠ sid) :
    lookupSpace (setSpace sp sid pt) sid2 = lookupSpace sp sid2 := by
  induction sp with
  | nil => rfl
  | cons p rest ih =>
    by_cases hp : p.1 = sid
    · unfold setSpace
      rw [if_pos hp]
      unfold lookupSpace
      rw [List.find?_cons_of_neg _ (by simp [Ne.symm h]),
        List.find?_cons_of_neg _ (by simp [hp, Ne.symm h])]
    · unfold setSpace
      rw [if_neg hp]
      unfold lookupSpace at ih ⊢
      by_cases hp2 : p.1 = sid2
      · rw [List.find?_cons_of_pos _ (by simp [hp2]), List.find?_cons_of_pos _ (by simp [hp2])]
      · rw [List.find?_cons_of_neg _ (by simpa using hp2),
          List.find?_cons_of_neg _ (by simpa using hp2)]
        exact ih

/-- Swapping a page out only rewrites (at most) that row. -/
theorem sendPageToSwap_getElem?_ne (pt : List TranslationEntry) (vpn i : Nat) (h : i ≠ vpn) :
    (sendPageToSwap pt vpn)[i]? = pt[i]? := by
  unfold sendPageToSwap
  cases hv : pt[vpn]? with
  | none => rfl
  | some pte =>
    dsimp only
    split_ifs with hval
    · exact List.getElem?_set_ne (Ne.symm h)
    · rfl

/-- The swapped-out row keeps its virtual page and is invalid afterwards
(either it was invalidated, or it already was invalid). -/
theorem sendPageToSwap_getElem?_self (pt : List TranslationEntry) (vpn : Nat)
    (pte : TranslationEntry) (h : (sendPageToSwap pt vpn)[vpn]? = some pte) :
    ∃ pte0 : TranslationEntry, pt[vpn]? = some pte0 ∧ pte.virtualPage = pte0.virtualPage ∧
      pte.valid = false := by
  unfold sendPageToSwap at h
  cases hv : pt[vpn]? with
  | none => rw [hv] at h; exact absurd (hv ▸ h) (by simp [hv])
  | some pte0 =>
    rw [hv] at h
    dsimp only at h
    split_ifs at h with hval
    · have hlt : vpn < pt.length := (List.getElem?_eq_some.mp hv).1
      rw [List.getElem?_set_self (by simpa using hlt)] at h
      refine ⟨pte0, rfl, ?_, ?_⟩
      · cases h
        rfl
      · cases h
        rfl
    · rw [hv] at h
      cases h
      refine ⟨pte, rfl, rfl, ?_⟩
      simpa using hval

/-- The demand-loading constructor's rows: row `i` carries `virtualPage = i`
and is invalid. -/
theorem freshPageTable_getElem? (n i : Nat) (pte : TranslationEntry)
    (h : (freshPageTable n)[i]? = some pte) :
    pte = ⟨i, 0, false, false, false, false⟩ := by
  unfold freshPageTable at h
  rw [List.getElem?_map] at h
  by_cases hlt : i < n
  · rw [List.getElem?_range hlt] at h
    simpa using h.symm
  · rw [List.getElem?_eq_none (by simpa using Nat.le_of_not_lt hlt)] at h
    simp at h

/-- The destructor's core-map sweep: it never touches the space list, keeps
the bitmap length, and leaves alone every frame not referenced by a valid
row of the swept table. -/
theorem cmClearValidFrames_spec (pt : List TranslationEntry) (s : VMState) :
    (cmClearValidFrames s pt).spaces = s.spaces ∧
    List.length (cmClearValidFrames s pt).coreBits = List.length s.coreBits ∧
    ∀ f : Nat, (∀ pte ∈ pt, pte.valid = true → pte.physicalPage ≠ f) →
      bmTest (cmClearValidFrames s pt).coreBits f = bmTest s.coreBits f ∧
      (cmClearValidFrames s pt).coreEntries f = s.coreEntries f := by
  induction pt generalizing s with
  | nil => exact ⟨rfl, rfl, fun _ _ => ⟨rfl, rfl⟩⟩
  | cons pteP rest ih =>
    unfold cmClearValidFrames
    split_ifs with hval
    · obtain ⟨ih1, ih2, ih3⟩ := ih (cmClear s pteP.physicalPage)
      refine ⟨ih1, by simpa [cmClear, bmClear] using ih2, ?_⟩
      intro f hf
      obtain ⟨h1, h2⟩ := ih3 f (fun pte hm => hf pte (List.mem_cons_of_mem _ hm))
      have hne : pteP.physicalPage ≠ f := hf pteP (List.mem_cons_self _ _) hval
      refine ⟨?_, ?_⟩
      · rw [h1]
        exact bmTest_clear_ne _ _ _ hne
      · rw [h2]
        exact updMap_ne _ _ _ _ (Ne.symm hne)
    · obtain ⟨ih1, ih2, ih3⟩ := ih s
      exact ⟨ih1, ih2, fun f hf => ih3 f (fun pte hm => hf pte (List.mem_cons_of_mem _ hm))⟩

/-- Swapping a page out does not change the table's length. -/
theorem length_sendPageToSwap (pt : List TranslationEntry) (vpn : Nat) :
    List.length (sendPageToSwap pt vpn) = List.length pt := by
  unfold sendPageToSwap
  cases pt[vpn]? with
  | none => rfl
  | some pte =>
    dsimp only
    split_ifs with h
    · exact List.length_set _ _ _
    · rfl

/-- The common tail of `LoadPage`: marking a free frame for `(sid, vpn)` and
installing the valid row preserves the agreement invariant, provided the
frame is in range and no valid row of any live space references it. -/
theorem vmInv_install (s : VMState) (sid vpn frame : Nat) (pt : List TranslationEntry)
    (hinv : vmInv s)
    (hlk : lookupSpace s.spaces sid = some pt)
    (hvpn : vpn < pt.length)
    (hframe : frame < NUM_PHYS_PAGES)
    (hnotref : ∀ q ∈ s.spaces, ∀ i : Nat, ∀ pte : TranslationEntry,
      q.2[i]? = some pte → pte.valid = true → pte.physicalPage ≠ frame) :
    vmInv { s with
        coreBits := bmMark s.coreBits frame,
        coreEntries := updMap s.coreEntries frame ⟨some sid, vpn⟩,
        spaces := setSpace s.spaces sid
          (pt.set vpn ⟨vpn, frame, true, false, false, false⟩) } := by
  obtain ⟨hlen, hnd, hrows⟩ := hinv
  refine ⟨?_, ?_, ?_⟩
  · show List.length (bmMark s.coreBits frame) = NUM_PHYS_PAGES
    unfold bmMark
    rw [List.length_set]
    exact hlen
  · show (List.map Prod.fst (setSpace s.spaces sid _)).Nodup
    rw [map_fst_setSpace]
    exact hnd
  · intro q hq i pte hpte
    have hq' := (mem_setSpace_iff s.spaces sid _ pt hnd hlk q).mp hq
    rcases hq' with rfl | ⟨hqmem, hqne⟩
    · dsimp only at hpte ⊢
      by_cases hiv : i = vpn
      · subst hiv
        rw [List.getElem?_set_self (by simpa using hvpn)] at hpte
        cases hpte
        refine ⟨rfl, fun _ => ⟨hframe, ?_, ?_, ?_⟩⟩
        · exact bmTest_mark_self _ _ (by rw [hlen]; exact hframe)
        · show (updMap s.coreEntries frame _ frame).space = some sid
          rw [updMap_self]
        · show (updMap s.coreEntries frame _ frame).vpn = i
          rw [updMap_self]
      · rw [List.getElem?_set_ne (Ne.symm hiv)] at hpte
        obtain ⟨hvp, hval⟩ := hrows (sid, pt) (lookupSpace_mem _ _ _ hlk) i pte hpte
        refine ⟨hvp, fun hv => ?_⟩
        obtain ⟨h1, h2, h3, h4⟩ := hval hv
        have hneq : pte.physicalPage ≠ frame :=
          hnotref (sid, pt) (lookupSpace_mem _ _ _ hlk) i pte hpte hv
        refine ⟨h1, ?_, ?_, ?_⟩
        · show bmTest (bmMark s.coreBits frame) pte.physicalPage = true
          rw [bmTest_mark_ne _ _ _ (Ne.symm hneq)]
          exact h2
        · show (updMap s.coreEntries frame _ pte.physicalPage).space = some sid
          rw [updMap_ne _ _ _ _ hneq]
          exact h3
        · show (updMap s.coreEntries frame _ pte.physicalPage).vpn = i
          rw [updMap_ne _ _ _ _ hneq]
          exact h4
    · obtain ⟨hvp, hval⟩ := hrows q hqmem i pte hpte
      refine ⟨hvp, fun hv => ?_⟩
      obtain ⟨h1, h2, h3, h4⟩ := hval hv
      have hneq : pte.physicalPage ≠ frame := hnotref q hqmem i pte hpte hv
      refine ⟨h1, ?_, ?_, ?_⟩
      · show bmTest (bmMark s.coreBits frame) pte.physicalPage = true
        rw [bmTest_mark_ne _ _ _ (Ne.symm hneq)]
        exact h2
      · show (updMap s.coreEntries frame _ pte.physicalPage).space = some q.1
        rw [updMap_ne _ _ _ _ hneq]
        exact h3
      · show (updMap s.coreEntries frame _ pte.physicalPage).vpn = i
        rw [updMap_ne _ _ _ _ hneq]
        exact h4

/-- Creating an address space (fresh pid, demand-loaded table) preserves the
agreement invariant. -/
theorem vmInv_create (s : VMState) (sid n : Nat) (hinv : vmInv s)
    (hlk : lookupSpace s.spaces sid = none) : vmInv (vmCreateSpace s sid n) := by
  obtain ⟨hlen, hnd, hrows⟩ := hinv
  refine ⟨hlen, ?_, ?_⟩
  · simp only [vmCreateSpace, List.map_cons]
    exact List.nodup_cons.mpr ⟨(lookupSpace_eq_none s.spaces sid).mp hlk, hnd⟩
  · intro p hp i pte hpte
    simp only [vmCreateSpace, List.mem_cons] at hp
    rcases hp with rfl | hp
    · dsimp only at hpte
      have he := freshPageTable_getElem? n i pte hpte
      subst he
      exact ⟨rfl, fun hv => by simp at hv⟩
    · exact hrows p hp i pte hpte

/-- Destroying an address space (clear the core map at every valid row's
frame, drop the space) preserves the agreement invariant. -/
theorem vmInv_destroy (s s' : VMState) (sid : Nat) (hinv : vmInv s)
    (h : vmDestroySpace s sid = some s') : vmInv s' := by
  obtain ⟨hlen, hnd, hrows⟩ := hinv
  simp only [vmDestroySpace] at h
  cases hlk : lookupSpace s.spaces sid with
  | none => simp only [hlk] at h; exact Option.noConfusion h
  | some pt =>
    simp only [hlk] at h
    rw [Option.some_inj] at h
    subst h
    obtain ⟨hsp, hblen, hframes⟩ := cmClearValidFrames_spec pt s
    refine ⟨?_, ?_, ?_⟩
    · show List.length (cmClearValidFrames s pt).coreBits = NUM_PHYS_PAGES
      rw [hblen]
      exact hlen
    · show (List.map Prod.fst (List.filter _ (cmClearValidFrames s pt).spaces)).Nodup
      rw [hsp]
      exact List.Nodup.sublist ((List.filter_sublist _).map Prod.fst) hnd
    · intro q hq i pte hpte
      have hq0 : q ∈ List.filter (fun p => p.1 ≠ sid) (cmClearValidFrames s pt).spaces := hq
      rw [hsp, List.mem_filter] at hq0
      obtain ⟨hqmem, hqne0⟩ := hq0
      have hqne : q.1 ≠ sid := by simpa using hqne0
      obtain ⟨hvp, hval⟩ := hrows q hqmem i pte hpte
      refine ⟨hvp, fun hv => ?_⟩
      obtain ⟨h1, h2, h3, h4⟩ := hval hv
      have hfr : ∀ pteP ∈ pt, pteP.valid = true → pteP.physicalPage ≠ pte.physicalPage := by
        intro pteP hm hvalP he
        obtain ⟨j, hjlt, hj⟩ := List.mem_iff_getElem.mp hm
        have hj? : pt[j]? = some pteP := by rw [List.getElem?_eq_getElem hjlt, hj]
        obtain ⟨-, hvalidP⟩ := hrows (sid, pt) (lookupSpace_mem _ _ _ hlk) j pteP hj?
        obtain ⟨-, -, hgsP, -⟩ := hvalidP hvalP
        rw [he] at hgsP
        exact hqne (Option.some.inj (h3.symm.trans hgsP))
      obtain ⟨hbt, hce⟩ := hframes pte.physicalPage hfr
      refine ⟨h1, ?_, ?_, ?_⟩
      · show bmTest (cmClearValidFrames s pt).coreBits pte.physicalPage = true
        rw [hbt]
        exact h2
      · show ((cmClearValidFrames s pt).coreEntries pte.physicalPage).space = some q.1
        rw [hce]
        exact h3
      · show ((cmClearValidFrames s pt).coreEntries pte.physicalPage).vpn = i
        rw [hce]
        exact h4

/-- Demand-loading a page (with or without eviction) preserves the
agreement invariant. -/
theorem vmInv_load (s s' : VMState) (sid vpn victim : Nat) (hinv : vmInv s)
    (h : vmLoadPage s sid vpn victim = some s') : vmInv s' := by
  obtain ⟨hlen, hnd, hrows⟩ := hinv
  simp only [vmLoadPage] at h
  cases hlk : lookupSpace s.spaces sid with
  | none => simp only [hlk] at h; exact Option.noConfusion h
  | some pt =>
    simp only [hlk] at h
    rcases Nat.lt_or_ge vpn pt.length with hvpn | hvpn
    · rw [if_pos hvpn] at h
      by_cases hr : (bmFind s.coreBits).1 = -1
      · -- memory full: evict `victim`, re-mark the frame, install
        have hcf : cmFind s sid vpn = (-1, s) := by
          simp only [cmFind]
          rw [if_pos hr, bmFind_fail s.coreBits hr]
        have hcf1 : (cmFind s sid vpn).1 = -1 := by rw [hcf]
        have hcf2 : (cmFind s sid vpn).2 = s := by rw [hcf]
        rw [hcf1, hcf2] at h
        rw [if_pos rfl] at h
        rcases Nat.lt_or_ge victim NUM_PHYS_PAGES with hvic | hvic
        · rw [if_pos hvic] at h
          cases hgs : cmGetSpace s victim with
          | none => simp only [hgs] at h; exact Option.noConfusion h
          | some vsid =>
            simp only [hgs] at h
            cases hlkv : lookupSpace s.spaces vsid with
            | none => simp only [hlkv] at h; exact Option.noConfusion h
            | some vpt =>
              simp only [hlkv, Option.map_some'] at h
              rw [Option.some_inj] at h
              subst h
              set sSw : VMState :=
                { s with spaces := setSpace s.spaces vsid (sendPageToSwap vpt (cmGetVPN s victim)) }
                with hsSw
              have hvptmem : (vsid, vpt) ∈ s.spaces := lookupSpace_mem _ _ _ hlkv
              have hswInv : vmInv sSw := by
                rw [hsSw]
                refine ⟨hlen, ?_, ?_⟩
                · show (List.map Prod.fst (setSpace s.spaces vsid _)).Nodup
                  rw [map_fst_setSpace]
                  exact hnd
                · intro q hq i pte hpte
                  have hq' := (mem_setSpace_iff s.spaces vsid _ vpt hnd hlkv q).mp hq
                  rcases hq' with rfl | ⟨hqmem, hqne⟩
                  · dsimp only at hpte ⊢
                    by_cases hivp : i = cmGetVPN s victim
                    · subst hivp
                      obtain ⟨pte0, hp0, hvpg, hvfalse⟩ :=
                        sendPageToSwap_getElem?_self vpt _ pte hpte
                      obtain ⟨hvp0, -⟩ := hrows (vsid, vpt) hvptmem _ pte0 hp0
                      refine ⟨by rw [hvpg]; exact hvp0, fun hv => ?_⟩
                      rw [hvfalse] at hv
                      exact Bool.noConfusion hv
                    · rw [sendPageToSwap_getElem?_ne vpt _ i hivp] at hpte
                      exact hrows (vsid, vpt) hvptmem i pte hpte
                  · exact hrows q hqmem i pte hpte
              have hnotref : ∀ q ∈ sSw.spaces, ∀ i : Nat, ∀ pte : TranslationEntry,
                  q.2[i]? = some pte → pte.valid = true → pte.physicalPage ≠ victim := by
                intro q hq i pte hpte hv he
                have hq' := (mem_setSpace_iff s.spaces vsid _ vpt hnd hlkv q).mp hq
                rcases hq' with rfl | ⟨hqmem, hqne⟩
                · dsimp only at hpte
                  by_cases hivp : i = cmGetVPN s victim
                  · subst hivp
                    obtain ⟨pte0, hp0, hvpg, hvfalse⟩ :=
                      sendPageToSwap_getElem?_self vpt _ pte hpte
                    rw [hvfalse] at hv
                    exact Bool.noConfusion hv
                  · rw [sendPageToSwap_getElem?_ne vpt _ i hivp] at hpte
                    obtain ⟨-, hval0⟩ := hrows (vsid, vpt) hvptmem i pte hpte
                    obtain ⟨-, -, -, h4⟩ := hval0 hv
                    rw [he] at h4
                    exact hivp h4.symm
                · obtain ⟨-, hval0⟩ := hrows q hqmem i pte hpte
                  obtain ⟨-, -, h3, -⟩ := hval0 hv
                  rw [he] at h3
                  exact hqne (Option.some.inj (h3.symm.trans hgs))
              have hEx : ∃ ptX, lookupSpace sSw.spaces sid = some ptX ∧
                  List.length ptX = List.length pt := by
                by_cases hsv : sid = vsid
                · subst hsv
                  have hvv : vpt = pt := by
                    rw [hlk] at hlkv
                    exact (Option.some.inj hlkv).symm
                  refine ⟨_, lookupSpace_setSpace_self _ _ _ _ hlkv, ?_⟩
                  rw [length_sendPageToSwap, hvv]
                · refine ⟨pt, ?_, rfl⟩
                  show lookupSpace (setSpace s.spaces vsid _) sid = some pt
                  rw [lookupSpace_setSpace_ne _ _ _ _ hsv]
                  exact hlk
              obtain ⟨ptX, hlkX, hlenX⟩ := hEx
              simp only [cmMark, hlkX, Option.getD_some]
              exact vmInv_install sSw sid vpn victim ptX hswInv hlkX (by omega) hvic hnotref
        · rw [if_neg (Nat.not_lt.mpr hvic)] at h
          exact Option.noConfusion h
      · -- a free frame exists: mark it and install
        obtain ⟨n, hfc, hr1, hr2, hnlt, hnbit⟩ := bmFind_succ s.coreBits hr
        have hframe : n < NUM_PHYS_PAGES := by rw [← hlen]; exact hnlt
        have hn32 : n < 2 ^ 32 := by
          have h20 : NUM_PHYS_PAGES = 20 := rfl
          omega
        have hcf : cmFind s sid vpn =
            ((n : Int),
              { s with
                  coreBits := bmMark s.coreBits n,
                  coreEntries := updMap s.coreEntries n ⟨some sid, vpn⟩ }) := by
          simp only [cmFind]
          rw [if_neg hr, hr1, hr2, toUnsigned_coe n hn32]
        have hcf1 : (cmFind s sid vpn).1 = (n : Int) := by rw [hcf]
        have hcf2 : (cmFind s sid vpn).2 =
            { s with
                coreBits := bmMark s.coreBits n,
                coreEntries := updMap s.coreEntries n ⟨some sid, vpn⟩ } := by
          rw [hcf]
        have hne : ¬((n : Int) = -1) := by omega
        rw [hcf1, hcf2] at h
        rw [if_neg hne, toUnsigned_coe n hn32] at h
        simp only [Option.map_some'] at h
        rw [Option.some_inj] at h
        subst h
        have hnotref : ∀ q ∈ s.spaces, ∀ i : Nat, ∀ pte : TranslationEntry,
            q.2[i]? = some pte → pte.valid = true → pte.physicalPage ≠ n := by
          intro q hq i pte hpte hv he
          obtain ⟨-, hval⟩ := hrows q hq i pte hpte
          obtain ⟨-, h2, -, -⟩ := hval hv
          rw [he] at h2
          simp [hnbit] at h2
        simp only [hlk, Option.getD_some]
        exact vmInv_install s sid vpn n pt ⟨hlen, hnd, hrows⟩ hlk hvpn hframe hnotref
    · rw [if_neg (Nat.not_lt.mpr hvpn)] at h
      exact Option.noConfusion h

/-- Every kernel operation that touches the core map or the page tables
preserves the agreement invariant. -/
theorem vmInv_step (s s' : VMState) (hinv : vmInv s) (hstep : VMStep s s') : vmInv s' :=
  match hstep with
  | VMStep.create _ sid numPages hlk => vmInv_create s sid numPages hinv hlk
  | VMStep.load _ _ sid vpn victim hl => vmInv_load s s' sid vpn victim hinv hl
  | VMStep.destroy _ _ sid hd => vmInv_destroy s s' sid hinv hd

/-- C4: page-table/core-map agreement holds between operations: the
invariant (every valid page-table entry of every live address space has its
`physicalPage` frame occupied in the core map with back-reference equal to
that space and that entry's `virtualPage`) is preserved by space creation,
`LoadPage` (with `CoreMap::Find`/`Mark` and eviction), and space
destruction (`CoreMap::Clear`); and under the invariant,
`CoreMap::GetSpace(pte.physicalPage)` is the owning space and
`CoreMap::GetVPN(pte.physicalPage)` is `pte.virtualPage` for every valid
entry. -/
theorem c4_pagetable_coremap_agreement (s s' : VMState) :
    (vmInv s → VMStep s s' → vmInv s') ∧
    (vmInv s → ∀ p ∈ s.spaces, ∀ i : Nat, ∀ pte : TranslationEntry,
      p.2[i]? = some pte → pte.valid = true →
      cmGetSpace s pte.physicalPage = some p.1 ∧
      cmGetVPN s pte.physicalPage = pte.virtualPage) := by
  constructor
  · intro hinv hstep
    exact vmInv_step s s' hinv hstep
  · intro hinv p hp i pte hpte hv
    obtain ⟨-, -, hrows⟩ := hinv
    obtain ⟨hvp, hval⟩ := hrows p hp i pte hpte
    obtain ⟨-, -, h3, h4⟩ := hval hv
    refine ⟨h3, ?_⟩
    rw [hvp]
    exact h4

/-- The agreement theorem applied at a concrete state: `vmEx` satisfies the
invariant, loading page 0 of pid 0 is a step to `vmEx2`, the invariant is
preserved, and the core map of `vmEx2` points frame 0 back at pid 0. -/
theorem c4_pagetable_coremap_agreement_witness :
    vmInv vmEx ∧ VMStep vmEx vmEx2 ∧ vmInv vmEx2 ∧ cmGetSpace vmEx2 0 = some 0 := by
  have hInv : vmInv vmEx := by
    refine ⟨by simp [vmEx], by simp [vmEx], ?_⟩
    intro p hp i pte hpte
    simp only [vmEx, List.mem_singleton] at hp
    subst hp
    dsimp only at hpte
    have he := freshPageTable_getElem? 1 i pte hpte
    subst he
    exact ⟨rfl, fun hv => by simp at hv⟩
  have hstep0 : vmLoadPage vmEx 0 0 0 = some vmEx2 := by rfl
  have hstep : VMStep vmEx vmEx2 := VMStep.load vmEx vmEx2 0 0 0 hstep0
  have hInv2 : vmInv vmEx2 := (c4_pagetable_coremap_agreement vmEx vmEx2).1 hInv hstep
  refine ⟨hInv, hstep, hInv2, ?_⟩
  have hsp : vmEx2.spaces =
      [(0, [(⟨0, 0, true, false, false, false⟩ : TranslationEntry)])] := by rfl
  have hmem : ((0 : Nat), [(⟨0, 0, true, false, false, false⟩ : TranslationEntry)]) ∈
      vmEx2.spaces := by
    rw [hsp]
    exact List.mem_singleton.mpr rfl
  have hag := (c4_pagetable_coremap_agreement vmEx2 vmEx2).2 hInv2
    ((0 : Nat), [(⟨0, 0, true, false, false, false⟩ : TranslationEntry)]) hmem 0
    ⟨0, 0, true, false, false, false⟩ rfl rfl
  exact hag.1

end Nachos